import Mathlib

/-!
Verification of the Smart-BibTeX-Validator core (bib_validator/validator.py and
bib_validator/sources/). Entries and field maps are modelled as association
lists of strings; Python dict/`get` truthiness is made explicit. External
network clients are modelled as abstract functions `String → Option ρ` over an
abstract provider-result type `ρ`, matching the four-method source contract.
The similarity ratio is Python difflib.SequenceMatcher (isjunk=None,
autojunk=True) translated to executable functions over `List Char`; floats are
modelled as exact rationals. Character classes (word characters, whitespace,
lowercasing) are modelled over the ASCII range.
-/

/-- Python dict of BibTeX fields: association list, first binding wins. -/
abbrev Entry := List (String × String)

/-- Normalized field map produced by a source (title, author, year, venue, doi). -/
abbrev FieldMap := List (String × String)

/-- `entry.get(k, dflt)`. -/
def entryGetD (e : Entry) (k dflt : String) : String := (List.lookup k e).getD dflt

/-- `entry.get(k)` followed by a Python truthiness test: `None` and `""` are falsy. -/
def truthyGet (e : Entry) (k : String) : Option String :=
  match List.lookup k e with
  | some v => if v = ("") then none else some v
  | none => none

/-- `d[k] = v` on a dict: replace in place if the key exists, else append. -/
def dictSet (e : Entry) (k v : String) : Entry :=
  if (List.lookup k e).isSome then e.map (fun p => if p.1 = k then (k, v) else p)
  else e ++ [(k, v)]

/-- Python `\s` over ASCII. -/
def isPySpace (c : Char) : Bool :=
  c == ' ' || c == '\t' || c == '\n' || c == '\r' || c == '\x0b' || c == '\x0c'

/-- `s.lower()` over ASCII, on a kernel-reducible representation. -/
def strLower (s : String) : String := String.mk (s.data.map Char.toLower)

/-- `s.upper()` over ASCII, on a kernel-reducible representation. -/
def strUpper (s : String) : String := String.mk (s.data.map Char.toUpper)

/-- `s.strip()` over ASCII whitespace. -/
def pyStrip (s : String) : String :=
  String.mk (((s.data.dropWhile isPySpace).reverse.dropWhile isPySpace).reverse)

/-- `sep.join(xs)`. -/
def strJoinSep (sep : String) : List String → String
  | [] => ("")
  | [x] => x
  | x :: xs => x ++ sep ++ strJoinSep sep xs

/-- `s.split(sep)` for a non-empty separator `c0 :: rest`: non-overlapping
leftmost matches, keeping empty pieces. Structural recursion on a fuel bound;
every step consumes at least one character, so fuel at least the list length
never runs out and the fallback is unreachable. -/
def splitOnGo (c0 : Char) (rest : List Char) : ℕ → List Char → List (List Char)
  | 0, l => [l]
  | _ + 1, [] => [[]]
  | fuel + 1, c :: cs =>
    if (c0 :: rest).isPrefixOf (c :: cs) then
      [] :: splitOnGo c0 rest fuel ((c :: cs).drop (rest.length + 1))
    else
      match splitOnGo c0 rest fuel cs with
      | [] => [[c]]
      | t :: ts => (c :: t) :: ts

def splitOnList (c0 : Char) (rest : List Char) (l : List Char) : List (List Char) :=
  splitOnGo c0 rest l.length l

/-- `s.split(sep)` on strings (Python raises on an empty separator; the core
only calls this with `" and "`). -/
def pySplit (sep s : String) : List String :=
  match sep.data with
  | [] => [s]
  | c0 :: rest => (splitOnList c0 rest s.data).map String.mk

/-- Argument of `authors_to_list`: a string or a list of strings. -/
inductive AuthorsVal where
  | str (s : String)
  | list (l : List String)
deriving DecidableEq

/-- `authors_to_list` from validator.py: falsy input gives `[]`; a list is
stripped elementwise with empties dropped; a string is split on the literal
`" and "`, stripped, empties dropped. -/
def authors_to_list : AuthorsVal → List String
  | .str s =>
    if s = ("") then []
    else ((pySplit (" and ") s).map pyStrip).filter (fun a => !(a == ("")))
  | .list l =>
    if l = [] then []
    else (l.map pyStrip).filter (fun a => !(a == ("")))

/-- Python `\w` over ASCII: alphanumeric or underscore. -/
def isWordChar (c : Char) : Bool := c.isAlphanum || c == '_'

/-- First regex of `normalize_string`: each occurrence of backslash + letters +
a braced group of non-brace characters is replaced by the group content;
scanning is leftmost, advancing one character on a failed attempt. Structural
recursion on a fuel bound; every step consumes at least one character, so fuel
at least the list length never runs out and the fuel-0 fallback (which leaves
the rest unchanged) is unreachable. -/
def latexStripGo : ℕ → List Char → List Char
  | 0, l => l
  | _ + 1, [] => []
  | fuel + 1, c :: cs =>
    if c == '\\' && (cs.headD ' ').isAlpha then
      match cs.dropWhile Char.isAlpha with
      | '{' :: rest2 =>
        match rest2.dropWhile (fun d => d != '}') with
        | '}' :: rest4 => rest2.takeWhile (fun d => d != '}') ++ latexStripGo fuel rest4
        | _ => c :: latexStripGo fuel cs
      | _ => c :: latexStripGo fuel cs
    else c :: latexStripGo fuel cs

def latexStrip (l : List Char) : List Char := latexStripGo l.length l

/-- Second regex: remove remaining brace characters. -/
def removeBraces (l : List Char) : List Char := l.filter (fun c => !(c == '{' || c == '}'))

/-- `s.lower()` over ASCII. -/
def lowerList (l : List Char) : List Char := l.map Char.toLower

/-- Third regex: every character that is neither a word character nor
whitespace becomes a space. -/
def replaceNonWord (l : List Char) : List Char :=
  l.map (fun c => if isWordChar c || isPySpace c then c else ' ')

/-- `s.split()`: split on runs of whitespace, dropping empties. Structural
recursion on a fuel bound, never exhausted for fuel at least the length. -/
def splitWsGo : ℕ → List Char → List (List Char)
  | 0, _ => []
  | _ + 1, [] => []
  | fuel + 1, c :: cs =>
    if isPySpace c then splitWsGo fuel cs
    else (c :: cs.takeWhile (fun d => !(isPySpace d))) ::
      splitWsGo fuel (cs.dropWhile (fun d => !(isPySpace d)))

def splitWs (l : List Char) : List (List Char) := splitWsGo l.length l

/-- `" ".join(tokens)`. -/
def joinSp : List (List Char) → List Char
  | [] => []
  | [t] => t
  | t :: ts => t ++ ' ' :: joinSp ts

/-- `normalize_string` pipeline on character lists. -/
def normalizeList (l : List Char) : List Char :=
  joinSp (splitWs (replaceNonWord (lowerList (removeBraces (latexStrip l)))))

/-- `SmartBibtexValidator.normalize_string`. -/
def normalize_string (s : String) : String :=
  if s = ("") then ("") else String.mk (normalizeList s.data)

/-! ### difflib.SequenceMatcher (isjunk=None, autojunk=True) -/

/-- Ascending list of positions of `c` in `b` (the b2j entry before purging). -/
def posList (b : List Char) (c : Char) : List ℕ :=
  (List.range b.length).filter (fun j => b.getD j ' ' == c)

/-- `b2j.get(c, [])` after the autojunk purge: characters occurring more than
`len(b) // 100 + 1` times in a sequence of length at least 200 are dropped.
With `isjunk=None` the junk set is empty, so no other purge happens. -/
def b2jGet (b : List Char) (c : Char) : List ℕ :=
  if 200 ≤ b.length ∧ b.length / 100 + 1 < (posList b c).length then []
  else posList b c

/-- `j2len.get(j, 0)` on the association-list model of the DP dictionary. -/
def lookupD (m : List (ℕ × ℕ)) (j : ℕ) : ℕ := (List.lookup j m).getD 0

/-- The chain value `k = j2len.get(j-1, 0) + 1` computed by the inner loop of
`find_longest_match` (in Python, `j2len.get(-1, 0)` is 0, hence the `j = 0`
case). -/
def stepK (prev : List (ℕ × ℕ)) (j : ℕ) : ℕ :=
  (if j = 0 then 0 else lookupD prev (j - 1)) + 1

/-- The best-block update `if k > bestsize` of the inner loop. -/
def stepBest (i j k : ℕ) (best : ℕ × ℕ × ℕ) : ℕ × ℕ × ℕ :=
  if best.2.2 < k then (i + 1 - k, j + 1 - k, k) else best

/-- Inner loop of `find_longest_match` for one row `i`: walk the ascending
occurrence list, skipping `j < blo`, breaking at `j ≥ bhi`, building the new
`j2len` dictionary and updating the best block on `k > bestsize`. -/
def innerLoop (i blo bhi : ℕ) :
    List ℕ → List (ℕ × ℕ) → List (ℕ × ℕ) → ℕ × ℕ × ℕ → List (ℕ × ℕ) × (ℕ × ℕ × ℕ)
  | [], _, acc, best => (acc, best)
  | j :: rest, prev, acc, best =>
    if j < blo then innerLoop i blo bhi rest prev acc best
    else if bhi ≤ j then (acc, best)
    else
      innerLoop i blo bhi rest prev ((j, stepK prev j) :: acc)
        (stepBest i j (stepK prev j) best)

/-- Outer loop of `find_longest_match` over the rows `range(alo, ahi)`. -/
def rowsLoop (a b : List Char) (blo bhi : ℕ) :
    List ℕ → List (ℕ × ℕ) → ℕ × ℕ × ℕ → ℕ × ℕ × ℕ
  | [], _, best => best
  | i :: ris, prev, best =>
    let step := innerLoop i blo bhi (b2jGet b (a.getD i ' ')) prev [] best
    rowsLoop a b blo bhi ris step.1 step.2

/-- Backward extension of the best block by equal elements (the junk set is
empty, so the non-junk guard always passes and the junk loops never run). -/
def extendBack (a b : List Char) (alo blo : ℕ) : ℕ → ℕ → ℕ → ℕ × ℕ × ℕ
  | 0, bj, bs => (0, bj, bs)
  | bi + 1, bj, bs =>
    if alo < bi + 1 ∧ blo < bj ∧ a.getD bi ' ' = b.getD (bj - 1) ' ' then
      extendBack a b alo blo bi (bj - 1) (bs + 1)
    else (bi + 1, bj, bs)

/-- Forward extension of the best block by equal elements; the loop runs at
most `ahi - (bi + bs)` times, and with that fuel the fuel-0 fallback coincides
with the loop condition being false. -/
def extendFwdGo (a b : List Char) (ahi bhi : ℕ) (bi bj : ℕ) : ℕ → ℕ → ℕ
  | 0, bs => bs
  | fuel + 1, bs =>
    if bi + bs < ahi ∧ bj + bs < bhi ∧ a.getD (bi + bs) ' ' = b.getD (bj + bs) ' ' then
      extendFwdGo a b ahi bhi bi bj fuel (bs + 1)
    else bs

def extendFwd (a b : List Char) (ahi bhi : ℕ) (bi bj bs : ℕ) : ℕ :=
  extendFwdGo a b ahi bhi bi bj (ahi - (bi + bs)) bs

/-- `find_longest_match(alo, ahi, blo, bhi)`. -/
def findLongestMatch (a b : List Char) (alo ahi blo bhi : ℕ) : ℕ × ℕ × ℕ :=
  let best := rowsLoop a b blo bhi (List.range' alo (ahi - alo)) [] (alo, blo, 0)
  let back := extendBack a b alo blo best.1 best.2.1 best.2.2
  (back.1, back.2.1, extendFwd a b ahi bhi back.1 back.2.1 back.2.2)

/-- Total size of all matching blocks (`get_matching_blocks` recursion; a
zero-size block stops the recursion as in the Python queue loop). The regions
shrink by at least the block size on each side, so the fuel bound
`(ahi - alo) + (bhi - blo) + 1` used by `mtAux` never runs out. -/
def mtAuxGo (a b : List Char) : ℕ → ℕ → ℕ → ℕ → ℕ → ℕ
  | 0, _, _, _, _ => 0
  | fuel + 1, alo, ahi, blo, bhi =>
    match findLongestMatch a b alo ahi blo bhi with
    | (bi, bj, bk) =>
      if 0 < bk then
        mtAuxGo a b fuel alo bi blo bj + bk + mtAuxGo a b fuel (bi + bk) ahi (bj + bk) bhi
      else 0

def mtAux (a b : List Char) (alo ahi blo bhi : ℕ) : ℕ :=
  mtAuxGo a b ((ahi - alo) + (bhi - blo) + 1) alo ahi blo bhi

/-- `SequenceMatcher(None, a, b).ratio()`: `2*M/T`, and `1.0` when both
sequences are empty. -/
def ratio (a b : List Char) : ℚ :=
  if a.length + b.length = 0 then 1
  else (2 * (mtAux a b 0 a.length 0 b.length) : ℚ) / (a.length + b.length)

/-- `SmartBibtexValidator.similarity`: ratio of the two normalized strings. -/
def similarity (x y : String) : ℚ :=
  ratio (normalize_string x).data (normalize_string y).data

/-! ### Field comparison -/

/-- Round half to even. -/
def rhe (q : ℚ) : ℤ :=
  let f := Rat.floor q
  let r := q - f
  if r < 1/2 then f else if 1/2 < r then f + 1 else if f % 2 = 0 then f else f + 1

/-- Two decimal digits with a leading zero. -/
def pad2 (n : ℕ) : String := if n < 10 then ("0") ++ toString n else toString n

/-- Python `"{:.2f}".format(q)` for a ratio in `[0, 1]`. -/
def fmtRatio2 (q : ℚ) : String :=
  let h := (rhe (q * 100)).toNat
  toString (h / 100) ++ (".") ++ pad2 (h % 100)

/-- The author list of an entry or FieldMap (`authors_to_list` of the value
under the `author` key). -/
def authorsField (e : Entry) : List String :=
  authors_to_list (.str ((List.lookup ("author") e).getD ("")))

/-- Positionally paired authors of similarity below 0.75, each rendered as
`'orig' vs 'corr'`. -/
def authorMismatches (original corrected : Entry) : List String :=
  (((authorsField original).zip (authorsField corrected)).filter
    (fun p => similarity p.1 p.2 < 3/4)).map
    (fun p => ("\x27") ++ p.1 ++ ("\x27 vs \x27") ++ p.2 ++ ("\x27"))

/-- Author comparison part of `compare_with_corrected`: a count-mismatch issue
when the list lengths differ; otherwise one combined issue listing the
positional pairs of similarity below 0.75, emitted only when there are between
one and three such pairs. -/
def compare_auth (original corrected : Entry) : List String :=
  if (List.lookup ("author") corrected).isSome && (List.lookup ("author") original).isSome then
    if (authorsField original).length ≠ (authorsField corrected).length then
      [("AUTHORS: Different count (") ++ toString (authorsField original).length ++
        (" vs ") ++ toString (authorsField corrected).length ++ (")")]
    else
      let ms := authorMismatches original corrected
      if ms ≠ [] ∧ ms.length ≤ 3 then [("AUTHORS: ") ++ strJoinSep ("; ") ms]
      else []
  else []

/-- Venue comparison: `booktitle` (or else `journal`, or else empty) against
the corrected `venue`, flagged below similarity 0.6 when both are truthy. -/
def compare_venue (original corrected : Entry) : List String :=
  let ov := match truthyGet original ("booktitle") with
    | some v => v
    | none => (truthyGet original ("journal")).getD ("")
  let cv := (List.lookup ("venue") corrected).getD ("")
  if ov ≠ ("") ∧ cv ≠ ("") then
    if similarity ov cv < 3/5 then
      [("VENUE: \x27") ++ ov ++ ("\x27 vs \x27") ++ cv ++ ("\x27")]
    else []
  else []

/-- Year comparison: both truthy and string-unequal. -/
def compare_year (original corrected : Entry) : List String :=
  let oy := entryGetD original ("year") ("")
  let cy := (List.lookup ("year") corrected).getD ("")
  if oy ≠ ("") ∧ cy ≠ ("") ∧ oy ≠ cy then [("YEAR: ") ++ oy ++ (" vs ") ++ cy] else []

/-- Title comparison: both keys present and similarity below 0.85. -/
def compare_title (original corrected : Entry) : List String :=
  if (List.lookup ("title") original).isSome && (List.lookup ("title") corrected).isSome then
    let sim := similarity ((List.lookup ("title") original).getD (""))
      ((List.lookup ("title") corrected).getD (""))
    if sim < 17/20 then [("TITLE: Low similarity (") ++ fmtRatio2 sim ++ (")")] else []
  else []

/-- `SmartBibtexValidator.compare_with_corrected`: the issue list in source
order (authors, venue, year, title). -/
def compare_with_corrected (original corrected : Entry) : List String :=
  compare_auth original corrected ++ compare_venue original corrected ++
    compare_year original corrected ++ compare_title original corrected

/-! ### Sources -/

/-- A validation source: the four-method contract, with provider-native
results abstracted by `ρ` and the network-backed query functions abstracted as
functions returning `Option ρ`. -/
structure Source (ρ : Type) where
  should_attempt : Entry → Bool × String
  search_by_doi : String → Option ρ
  search_by_title : String → Option ρ
  extract_bibtex_fields : ρ → FieldMap

/-- A per-source match record as stored in `result["matches"]`. -/
structure SMatch (ρ : Type) where
  search_method : Option String
  source_data : ρ
  corrected_fields : FieldMap
deriving DecidableEq

/-- A per-source attempt record. -/
structure Attempt where
  attempted : Bool
  reason : String
deriving DecidableEq

/-- A `ValidationResult` as built by `validate_entry`. -/
structure VResult (ρ : Type) where
  id : String
  title : String
  status : String
  issues : List String
  corrected_fields : FieldMap
  search_method : Option String
  matchesList : List (String × SMatch ρ)
  attempts : List (String × Attempt)
deriving DecidableEq

/-- Canonical source priority order. -/
def DEFAULT_ORDER : List String := [("dblp"), ("scholar"), ("semantic")]

/-- Substring test on character lists (Python `pat in hay`). -/
def containsSubList (hay pat : List Char) : Bool :=
  match hay with
  | [] => pat.isEmpty
  | _ :: hs => pat.isPrefixOf hay || containsSubList hs pat

/-- Substring test on strings. -/
def containsSub (hay pat : String) : Bool := containsSubList hay.data pat.data

/-- The DBLP title denylist, in source order. -/
def skip_patterns : List String :=
  [("github.com"), ("github issue"), ("pull request"), ("documentation"),
   ("readme"), ("security policy"), ("vulnerability disclosure"), ("nasa.gov"),
   ("esa.int"), ("manual"), ("guide"), ("tutorial"), ("blog"), ("website"),
   ("webpage")]

/-- `DBLPSource.should_attempt`. -/
def dblp_should_attempt (entry : Entry) : Bool × String :=
  let etype := strLower (entryGetD entry ("ENTRYTYPE") (""))
  let title := strLower ((List.lookup ("title") entry).getD (""))
  match skip_patterns.find? (fun p => containsSub title p) with
  | some p => (false, ("title contains \x27") ++ p ++ ("\x27"))
  | none =>
    if etype = ("online") ∧ (truthyGet entry ("doi")).isNone then
      (false, ("online entry without DOI"))
    else if (etype = ("techreport") ∨ etype = ("misc") ∨ etype = ("manual")) ∧
        (truthyGet entry ("doi")).isNone then
      (false, etype ++ (" without DOI"))
    else (true, ("ok"))

/-- `ScholarSource.should_attempt`. -/
def scholar_should_attempt (entry : Entry) : Bool × String :=
  if (truthyGet entry ("title")).isNone then (false, ("missing title")) else (true, ("ok"))

/-- `SemanticScholarSource.should_attempt`. -/
def semantic_should_attempt (entry : Entry) : Bool × String :=
  if (truthyGet entry ("doi")).isNone ∧ (truthyGet entry ("title")).isNone then
    (false, ("missing doi and title"))
  else (true, ("ok"))

/-- A DBLP-like source with its skip policy and abstract query functions. -/
def mkDblpSource {ρ : Type} (sdoi stitle : String → Option ρ) (ext : ρ → FieldMap) :
    Source ρ :=
  { should_attempt := dblp_should_attempt, search_by_doi := sdoi,
    search_by_title := stitle, extract_bibtex_fields := ext }

/-- A Scholar-like source: `search_by_doi` returns `None` unconditionally in
the source (`ScholarSource.search_by_doi`). -/
def mkScholarSource {ρ : Type} (stitle : String → Option ρ) (ext : ρ → FieldMap) :
    Source ρ :=
  { should_attempt := scholar_should_attempt, search_by_doi := fun _ => none,
    search_by_title := stitle, extract_bibtex_fields := ext }

/-- A Semantic-Scholar-like source. -/
def mkSemanticSource {ρ : Type} (sdoi stitle : String → Option ρ) (ext : ρ → FieldMap) :
    Source ρ :=
  { should_attempt := semantic_should_attempt, search_by_doi := sdoi,
    search_by_title := stitle, extract_bibtex_fields := ext }

/-- The default source registry in canonical order, with the external query
and extraction functions abstract. -/
def defaultSources {ρ : Type} (ddoi dtitle : String → Option ρ) (dext : ρ → FieldMap)
    (stitle : String → Option ρ) (sext : ρ → FieldMap)
    (mdoi mtitle : String → Option ρ) (mext : ρ → FieldMap) : List (String × Source ρ) :=
  [(("dblp"), mkDblpSource ddoi dtitle dext),
   (("scholar"), mkScholarSource stitle sext),
   (("semantic"), mkSemanticSource mdoi mtitle mext)]

/-! ### Entry validation -/

/-- The search block of the `validate_entry` loop body for one attempted
source: DOI search first when the entry has a truthy DOI, title search when
nothing was found yet and the entry has a truthy title; a match record is
built exactly when a search returned a result. -/
def trySource {ρ : Type} (name : String) (src : Source ρ) (entry : Entry) :
    Option (SMatch ρ) :=
  let foundA : Option ρ :=
    match truthyGet entry ("doi") with
    | some d => src.search_by_doi d
    | none => none
  let fm : Option ρ × Option String :=
    match foundA with
    | some r => (some r, some (name ++ (":DOI")))
    | none =>
      match truthyGet entry ("title") with
      | some t =>
        match src.search_by_title t with
        | some r => (some r, some (name ++ (":Title")))
        | none => (none, none)
      | none => (none, none)
  match fm.1 with
  | some r => some ⟨fm.2, r, src.extract_bibtex_fields r⟩
  | none => none

/-- One iteration of the `validate_entry` source loop: skip names not in the
registry, record the attempt, and store a match when a search succeeded. -/
def validateStep {ρ : Type} (sources : List (String × Source ρ)) (entry : Entry)
    (acc : List (String × SMatch ρ) × List (String × Attempt)) (name : String) :
    List (String × SMatch ρ) × List (String × Attempt) :=
  match List.lookup name sources with
  | none => acc
  | some src =>
    let ca := src.should_attempt entry
    let attempts2 := acc.2 ++ [(name, ⟨ca.1, ca.2⟩)]
    if ca.1 then
      match trySource name src entry with
      | some m => (acc.1 ++ [(name, m)], attempts2)
      | none => (acc.1, attempts2)
    else (acc.1, attempts2)

/-- Corrected-field selection: the first source of the canonical order that
has a match supplies both the corrected fields and the search method. -/
def chooseCorrected {ρ : Type} : List String → List (String × SMatch ρ) →
    FieldMap × Option String
  | [], _ => ([], none)
  | n :: rest, ms =>
    match List.lookup n ms with
    | some m => (m.corrected_fields, m.search_method)
    | none => chooseCorrected rest ms

/-- `list(dict.fromkeys(issues))`: de-duplicate keeping first occurrences.
Structural recursion on a fuel bound, never exhausted for fuel at least the
list length. -/
def dedupFirstGo : ℕ → List String → List String
  | 0, _ => []
  | _ + 1, [] => []
  | fuel + 1, x :: xs => x :: dedupFirstGo fuel (xs.filter (fun y => !(y == x)))

def dedupFirst (l : List String) : List String := dedupFirstGo l.length l

/-- `SmartBibtexValidator.validate_entry`. -/
def validate_entry {ρ : Type} (sources : List (String × Source ρ)) (entry : Entry) :
    VResult ρ :=
  let ma := DEFAULT_ORDER.foldl (validateStep sources entry) ([], [])
  if ma.1.isEmpty then
    { id := entryGetD entry ("ID") ("unknown"), title := entryGetD entry ("title") (""),
      status := ("not_found"), issues := [("Entry not found in any source")],
      corrected_fields := [], search_method := none, matchesList := ma.1, attempts := ma.2 }
  else
    let ch := chooseCorrected DEFAULT_ORDER ma.1
    let issues := dedupFirst ((ma.1.map (fun p =>
      (compare_with_corrected entry p.2.corrected_fields).map
        (fun i => strUpper p.1 ++ (": ") ++ i))).flatten)
    { id := entryGetD entry ("ID") ("unknown"), title := entryGetD entry ("title") (""),
      status := if issues.isEmpty then ("validated") else ("mismatch"), issues := issues,
      corrected_fields := ch.1, search_method := ch.2, matchesList := ma.1, attempts := ma.2 }

/-! ### Batch validation and corrections -/

/-- The three result buckets. -/
structure BatchResults (ρ : Type) where
  validated : List (VResult ρ)
  mismatches : List (VResult ρ)
  not_found : List (VResult ρ)
deriving DecidableEq

/-- Loop body of `validate_all`: append the result of one entry to the bucket
selected by its status. -/
def classifyStep {ρ : Type} (sources : List (String × Source ρ)) (acc : BatchResults ρ)
    (e : Entry) : BatchResults ρ :=
  let r := validate_entry sources e
  if r.status = ("validated") then { acc with validated := acc.validated ++ [r] }
  else if r.status = ("mismatch") then { acc with mismatches := acc.mismatches ++ [r] }
  else if r.status = ("not_found") then { acc with not_found := acc.not_found ++ [r] }
  else acc

/-- `SmartBibtexValidator.validate_all`: validate each entry in input order
and append its result to the bucket selected by its status. -/
def validate_all {ρ : Type} (sources : List (String × Source ρ)) (entries : List Entry) :
    BatchResults ρ :=
  entries.foldl (classifyStep sources) ⟨[], [], []⟩

/-- The f-string rendering of `result["search_method"]` (`None` prints as the
string `None`). -/
def methodString : Option String → String
  | some s => s
  | none => ("None")

/-- The field-writing loop of `apply_corrections_to_entries`: write each
non-empty corrected value into the accumulating copy, routing `venue` to
`journal` for `article` entries and to `booktitle` otherwise. -/
def applyFieldsAux (entry : Entry) (fm : List (String × String)) (acc : Entry) : Entry :=
  fm.foldl (fun acc fv =>
    if fv.2 ≠ ("") then
      if fv.1 = ("venue") then
        if List.lookup ("ENTRYTYPE") entry = some ("article") then
          dictSet acc ("journal") fv.2
        else dictSet acc ("booktitle") fv.2
      else dictSet acc fv.1 fv.2
    else acc) acc

/-- Body of the `apply_corrections_to_entries` loop for one entry: find the
first result among validated and mismatch results whose id equals the entry id;
when found, write each non-empty corrected value (routing `venue` by entry
type) and append the provenance note. -/
def applyOne {ρ : Type} (results : List (VResult ρ)) (entry : Entry) : Entry :=
  match results.find? (fun r => List.lookup ("ID") entry == some r.id) with
  | none => entry
  | some r =>
    dictSet (applyFieldsAux entry r.corrected_fields entry) ("note")
      (if entryGetD (applyFieldsAux entry r.corrected_fields entry) ("note") ("") ≠ ("")
       then entryGetD (applyFieldsAux entry r.corrected_fields entry) ("note") ("")
         ++ ("; ") ++ (("Validated via ") ++ methodString r.search_method)
       else ("Validated via ") ++ methodString r.search_method)

/-- `SmartBibtexValidator.apply_corrections_to_entries`. -/
def apply_corrections_to_entries {ρ : Type} (entries : List Entry)
    (validated mismatches : List (VResult ρ)) : List Entry :=
  entries.map (applyOne (validated ++ mismatches))

/-! ### Characterization of the validate_entry loop -/

/-- What the source loop stores for one source name: nothing when the name is
not registered or its `should_attempt` declines, else the `trySource` result. -/
def perSource {ρ : Type} (sources : List (String × Source ρ)) (entry : Entry)
    (n : String) : Option (SMatch ρ) :=
  match List.lookup n sources with
  | none => none
  | some src => if (src.should_attempt entry).1 then trySource n src entry else none

/-- The match association list accumulated by the source loop. -/
def sourceMatches {ρ : Type} (sources : List (String × Source ρ)) (entry : Entry) :
    List (String × SMatch ρ) :=
  DEFAULT_ORDER.filterMap (fun n => (perSource sources entry n).map (fun m => (n, m)))

/-- The attempt association list accumulated by the source loop. -/
def attemptsOf {ρ : Type} (sources : List (String × Source ρ)) (entry : Entry) :
    List (String × Attempt) :=
  DEFAULT_ORDER.filterMap (fun n => (List.lookup n sources).map
    (fun src => (n, Attempt.mk (src.should_attempt entry).1 (src.should_attempt entry).2)))

lemma foldl_validateStep_fst {ρ : Type} (sources : List (String × Source ρ)) (entry : Entry) :
    ∀ (names : List String) (acc : List (String × SMatch ρ) × List (String × Attempt)),
      (names.foldl (validateStep sources entry) acc).1
        = acc.1 ++ names.filterMap (fun n => (perSource sources entry n).map (fun m => (n, m)))
  | [], acc => by simp
  | n :: ns, acc => by
    rw [List.foldl_cons, foldl_validateStep_fst sources entry ns, List.filterMap_cons]
    show (validateStep sources entry acc n).1 ++ _ = _
    unfold validateStep perSource
    cases h : List.lookup n sources with
    | none => simp
    | some src =>
      by_cases hb : (src.should_attempt entry).1
      · cases ht : trySource n src entry <;> simp [hb, ht]
      · simp [hb]

lemma foldl_validateStep_snd {ρ : Type} (sources : List (String × Source ρ)) (entry : Entry) :
    ∀ (names : List String) (acc : List (String × SMatch ρ) × List (String × Attempt)),
      (names.foldl (validateStep sources entry) acc).2
        = acc.2 ++ names.filterMap (fun n => (List.lookup n sources).map
            (fun src => (n, Attempt.mk (src.should_attempt entry).1 (src.should_attempt entry).2)))
  | [], acc => by simp
  | n :: ns, acc => by
    rw [List.foldl_cons, foldl_validateStep_snd sources entry ns, List.filterMap_cons]
    show (validateStep sources entry acc n).2 ++ _ = _
    unfold validateStep
    cases h : List.lookup n sources with
    | none => simp
    | some src =>
      by_cases hb : (src.should_attempt entry).1
      · cases ht : trySource n src entry <;> simp [hb, ht]
      · simp [hb]

/-- `validate_entry` as a function of the accumulated matches and attempts. -/
def veAbs {ρ : Type} (ms : List (String × SMatch ρ)) (ats : List (String × Attempt))
    (entry : Entry) : VResult ρ :=
  if ms.isEmpty then
    { id := entryGetD entry ("ID") ("unknown"), title := entryGetD entry ("title") (""),
      status := ("not_found"), issues := [("Entry not found in any source")],
      corrected_fields := [], search_method := none, matchesList := ms, attempts := ats }
  else
    let ch := chooseCorrected DEFAULT_ORDER ms
    let issues := dedupFirst ((ms.map (fun p =>
      (compare_with_corrected entry p.2.corrected_fields).map
        (fun i => strUpper p.1 ++ (": ") ++ i))).flatten)
    { id := entryGetD entry ("ID") ("unknown"), title := entryGetD entry ("title") (""),
      status := if issues.isEmpty then ("validated") else ("mismatch"), issues := issues,
      corrected_fields := ch.1, search_method := ch.2, matchesList := ms, attempts := ats }

lemma ve_eq {ρ : Type} (sources : List (String × Source ρ)) (entry : Entry) :
    validate_entry sources entry
      = veAbs (sourceMatches sources entry) (attemptsOf sources entry) entry := by
  have hp : DEFAULT_ORDER.foldl (validateStep sources entry) ([], [])
      = (sourceMatches sources entry, attemptsOf sources entry) := by
    apply Prod.ext
    · rw [foldl_validateStep_fst]; simp [sourceMatches]
    · rw [foldl_validateStep_snd]; simp [attemptsOf]
  unfold validate_entry veAbs
  rw [hp]

lemma ve_matchesList {ρ : Type} (sources : List (String × Source ρ)) (entry : Entry) :
    (validate_entry sources entry).matchesList = sourceMatches sources entry := by
  rw [ve_eq]; unfold veAbs; split <;> simp

lemma lookup_tagged {ρ : Type} (f : String → Option (SMatch ρ)) :
    ∀ (ks : List String), ks.Nodup → ∀ (n : String),
      List.lookup n (ks.filterMap (fun k => (f k).map (fun m => (k, m))))
        = if n ∈ ks then f n else none
  | [], _, n => by simp
  | k :: ks, hnd, n => by
    rw [List.filterMap_cons]
    cases hf : f k with
    | none =>
      simp only [Option.map_none']
      rw [lookup_tagged f ks (List.Nodup.of_cons hnd) n]
      by_cases hn : n = k
      · subst hn
        have : n ∉ ks := (List.nodup_cons.mp hnd).1
        simp [this, hf]
      · simp [hn]
    | some m =>
      simp only [Option.map_some']
      by_cases hn : n = k
      · subst hn; simp [List.lookup, hf]
      · have hbeq : (n == k) = false := by simp [hn]
        simp only [List.lookup, hbeq]
        rw [lookup_tagged f ks (List.Nodup.of_cons hnd) n]
        simp [hn]

lemma lookup_matchesList {ρ : Type} (sources : List (String × Source ρ)) (entry : Entry)
    (n : String) (hn : n ∈ DEFAULT_ORDER) :
    List.lookup n (validate_entry sources entry).matchesList = perSource sources entry n := by
  rw [ve_matchesList]
  unfold sourceMatches
  rw [lookup_tagged _ DEFAULT_ORDER (by decide) n]
  simp [hn]

lemma chooseCorrected_spec {ρ : Type} (ms : List (String × SMatch ρ)) :
    ∀ (order : List String), (∃ n, n ∈ order ∧ (List.lookup n ms).isSome) →
      ∃ pre n post m, order = pre ++ n :: post
        ∧ (∀ p ∈ pre, List.lookup p ms = none)
        ∧ List.lookup n ms = some m
        ∧ chooseCorrected order ms = (m.corrected_fields, m.search_method)
  | [], h => by simp at h
  | k :: rest, h => by
    cases hk : List.lookup k ms with
    | some m =>
      exact ⟨[], k, rest, m, rfl, by simp, hk, by simp [chooseCorrected, hk]⟩
    | none =>
      have h2 : ∃ n, n ∈ rest ∧ (List.lookup n ms).isSome := by
        obtain ⟨n, hn, hs⟩ := h
        rcases List.mem_cons.mp hn with h1 | h1
        · subst h1; rw [hk] at hs; simp at hs
        · exact ⟨n, h1, hs⟩
      obtain ⟨pre, n, post, m, heq, hpre, hlook, hch⟩ := chooseCorrected_spec ms rest h2
      refine ⟨k :: pre, n, post, m, by rw [heq, List.cons_append], ?_, hlook, ?_⟩
      · intro p hp
        rcases List.mem_cons.mp hp with h1 | h1
        · subst h1; exact hk
        · exact hpre p h1
      · simp [chooseCorrected, hk, hch]

lemma sourceMatches_key {ρ : Type} (sources : List (String × Source ρ)) (entry : Entry)
    (h : sourceMatches sources entry ≠ []) :
    ∃ n, n ∈ DEFAULT_ORDER ∧ (List.lookup n (sourceMatches sources entry)).isSome := by
  cases hc : sourceMatches sources entry with
  | nil => exact absurd hc h
  | cons p rest =>
    have hpmem : p ∈ sourceMatches sources entry := by rw [hc]; exact List.mem_cons_self p rest
    unfold sourceMatches at hpmem
    obtain ⟨k, hk, hpk⟩ := List.mem_filterMap.mp hpmem
    obtain ⟨v, _, hkv⟩ := Option.map_eq_some'.mp hpk
    refine ⟨k, hk, ?_⟩
    rw [← hkv]
    simp [List.lookup]

/-- C1: when at least one source matched, the corrected fields and the search
method both come from the single highest-priority matching source in the
canonical order, while the issue list is computed (with source-name prefixes,
de-duplicated keeping first occurrences) from every matching source's
FieldMap. -/
theorem c1_priority_selection {ρ : Type} (sources : List (String × Source ρ)) (entry : Entry)
    (h : (validate_entry sources entry).matchesList ≠ []) :
    ∃ pre n post m,
      DEFAULT_ORDER = pre ++ n :: post
      ∧ (∀ p ∈ pre, List.lookup p (validate_entry sources entry).matchesList = none)
      ∧ List.lookup n (validate_entry sources entry).matchesList = some m
      ∧ (validate_entry sources entry).corrected_fields = m.corrected_fields
      ∧ (validate_entry sources entry).search_method = m.search_method
      ∧ (validate_entry sources entry).issues
          = dedupFirst (((validate_entry sources entry).matchesList.map (fun p =>
              (compare_with_corrected entry p.2.corrected_fields).map
                (fun i => strUpper p.1 ++ (": ") ++ i))).flatten) := by
  have hm : sourceMatches sources entry ≠ [] := by
    rw [← ve_matchesList]; exact h
  obtain ⟨n0, hn0, hs0⟩ := sourceMatches_key sources entry hm
  obtain ⟨pre, n, post, m, heq, hpre, hlook, hch⟩ :=
    chooseCorrected_spec (sourceMatches sources entry) DEFAULT_ORDER ⟨n0, hn0, hs0⟩
  have hne : (sourceMatches sources entry).isEmpty = false := by
    cases hc : sourceMatches sources entry with
    | nil => exact absurd hc hm
    | cons a b => simp
  refine ⟨pre, n, post, m, heq, ?_, ?_, ?_, ?_, ?_⟩
  · intro p hp; rw [ve_matchesList]; exact hpre p hp
  · rw [ve_matchesList]; exact hlook
  · rw [ve_eq]; unfold veAbs; rw [if_neg (by simp [hne])]; simp [hch]
  · rw [ve_eq]; unfold veAbs; rw [if_neg (by simp [hne])]; simp [hch]
  · rw [ve_matchesList, ve_eq]; unfold veAbs; rw [if_neg (by simp [hne])]

lemma trySource_none {ρ : Type} {entry : Entry} (hd : truthyGet entry ("doi") = none)
    (ht : truthyGet entry ("title") = none) (n : String) (src : Source ρ) :
    trySource n src entry = none := by
  simp [trySource, hd, ht]

/-- C2: a result with no source match gets status `not_found` and exactly the
single issue `Entry not found in any source`; moreover an entry with neither a
truthy DOI nor a truthy title always ends in this outcome under the default
registry, whatever the external search and extraction functions return — the
whole result is independent of them, because no search is ever issued. -/
theorem c2_not_found :
    (∀ (ρ : Type) (sources : List (String × Source ρ)) (entry : Entry),
      (validate_entry sources entry).matchesList = [] →
        (validate_entry sources entry).status = ("not_found")
        ∧ (validate_entry sources entry).issues = [("Entry not found in any source")])
    ∧ (∀ (ρ : Type) (ddoi dtitle : String → Option ρ) (dext : ρ → FieldMap)
        (stitle : String → Option ρ) (sext : ρ → FieldMap)
        (mdoi mtitle : String → Option ρ) (mext : ρ → FieldMap) (entry : Entry),
        truthyGet entry ("doi") = none → truthyGet entry ("title") = none →
          (validate_entry (defaultSources ddoi dtitle dext stitle sext mdoi mtitle mext)
              entry).matchesList = []
          ∧ (validate_entry (defaultSources ddoi dtitle dext stitle sext mdoi mtitle mext)
              entry).status = ("not_found")
          ∧ (validate_entry (defaultSources ddoi dtitle dext stitle sext mdoi mtitle mext)
              entry).issues = [("Entry not found in any source")]
          ∧ ∀ (ddoi2 dtitle2 : String → Option ρ) (dext2 : ρ → FieldMap)
              (stitle2 : String → Option ρ) (sext2 : ρ → FieldMap)
              (mdoi2 mtitle2 : String → Option ρ) (mext2 : ρ → FieldMap),
              validate_entry (defaultSources ddoi dtitle dext stitle sext mdoi mtitle mext)
                  entry
                = validate_entry (defaultSources ddoi2 dtitle2 dext2 stitle2 sext2 mdoi2
                    mtitle2 mext2) entry) := by
  have part1 : ∀ (ρ : Type) (sources : List (String × Source ρ)) (entry : Entry),
      (validate_entry sources entry).matchesList = [] →
        (validate_entry sources entry).status = ("not_found")
        ∧ (validate_entry sources entry).issues = [("Entry not found in any source")] := by
    intro ρ sources entry h
    have hm : sourceMatches sources entry = [] := by rw [← ve_matchesList]; exact h
    rw [ve_eq, hm]
    unfold veAbs
    simp
  refine ⟨part1, ?_⟩
  intro ρ ddoi dtitle dext stitle sext mdoi mtitle mext entry hd ht
  have hl1 : List.lookup ("dblp") (defaultSources ddoi dtitle dext stitle sext mdoi mtitle
      mext) = some (mkDblpSource ddoi dtitle dext) := rfl
  have hl2 : List.lookup ("scholar") (defaultSources ddoi dtitle dext stitle sext mdoi
      mtitle mext) = some (mkScholarSource stitle sext) := rfl
  have hl3 : List.lookup ("semantic") (defaultSources ddoi dtitle dext stitle sext mdoi
      mtitle mext) = some (mkSemanticSource mdoi mtitle mext) := rfl
  have hms : sourceMatches (defaultSources ddoi dtitle dext stitle sext mdoi mtitle mext)
      entry = [] := by
    unfold sourceMatches DEFAULT_ORDER
    simp [perSource, hl1, hl2, hl3, trySource_none hd ht]
  have hmm : (validate_entry (defaultSources ddoi dtitle dext stitle sext mdoi mtitle mext)
      entry).matchesList = [] := by rw [ve_matchesList]; exact hms
  obtain ⟨hstat, hiss⟩ := part1 ρ _ entry hmm
  refine ⟨hmm, hstat, hiss, ?_⟩
  intro ddoi2 dtitle2 dext2 stitle2 sext2 mdoi2 mtitle2 mext2
  have hl1b : List.lookup ("dblp") (defaultSources ddoi2 dtitle2 dext2 stitle2 sext2 mdoi2
      mtitle2 mext2) = some (mkDblpSource ddoi2 dtitle2 dext2) := rfl
  have hl2b : List.lookup ("scholar") (defaultSources ddoi2 dtitle2 dext2 stitle2 sext2
      mdoi2 mtitle2 mext2) = some (mkScholarSource stitle2 sext2) := rfl
  have hl3b : List.lookup ("semantic") (defaultSources ddoi2 dtitle2 dext2 stitle2 sext2
      mdoi2 mtitle2 mext2) = some (mkSemanticSource mdoi2 mtitle2 mext2) := rfl
  have hms2 : sourceMatches (defaultSources ddoi2 dtitle2 dext2 stitle2 sext2 mdoi2 mtitle2
      mext2) entry = [] := by
    unfold sourceMatches DEFAULT_ORDER
    simp [perSource, hl1b, hl2b, hl3b, trySource_none hd ht]
  have hat : attemptsOf (defaultSources ddoi dtitle dext stitle sext mdoi mtitle mext) entry
      = attemptsOf (defaultSources ddoi2 dtitle2 dext2 stitle2 sext2 mdoi2 mtitle2 mext2)
        entry := rfl
  rw [ve_eq, ve_eq, hms, hms2, hat]

/-- C3: for a registered source accepted by `should_attempt`, the stored match
record equals the `trySource` outcome; a truthy DOI is searched first and a
hit is recorded as `{source}:DOI`; the title search runs only when the entry
has a truthy title and the DOI either is absent or found nothing, recorded as
`{source}:Title`; and a match exists exactly when one of the two searches
returned a result. -/
theorem c3_search_strategy {ρ : Type} (sources : List (String × Source ρ)) (entry : Entry)
    (n : String) (src : Source ρ) (hn : n ∈ DEFAULT_ORDER)
    (hs : List.lookup n sources = some src)
    (hatt : (src.should_attempt entry).1 = true) :
    List.lookup n (validate_entry sources entry).matchesList = trySource n src entry
    ∧ (∀ d r, truthyGet entry ("doi") = some d → src.search_by_doi d = some r →
        trySource n src entry
          = some ⟨some (n ++ (":DOI")), r, src.extract_bibtex_fields r⟩)
    ∧ (∀ t, truthyGet entry ("title") = some t →
        (truthyGet entry ("doi") = none ∨
          ∃ d, truthyGet entry ("doi") = some d ∧ src.search_by_doi d = none) →
        trySource n src entry
          = (src.search_by_title t).map
              (fun r => ⟨some (n ++ (":Title")), r, src.extract_bibtex_fields r⟩))
    ∧ ((trySource n src entry).isSome
        ↔ (∃ d r, truthyGet entry ("doi") = some d ∧ src.search_by_doi d = some r)
          ∨ (∃ t r, truthyGet entry ("title") = some t ∧ src.search_by_title t = some r)) := by
  refine ⟨?_, ?_, ?_, ?_⟩
  · rw [lookup_matchesList sources entry n hn]
    unfold perSource
    rw [hs]
    simp [hatt]
  · intro d r hd hr
    simp [trySource, hd, hr]
  · intro t ht hdisj
    rcases hdisj with hd0 | ⟨d, hd, hr⟩
    · simp only [trySource, hd0, ht]
      cases src.search_by_title t <;> simp
    · simp only [trySource, hd, hr, ht]
      cases src.search_by_title t <;> simp
  · cases hdoi : truthyGet entry ("doi") with
    | some d =>
      cases hr : src.search_by_doi d with
      | some r =>
        apply iff_of_true
        · simp [trySource, hdoi, hr]
        · exact Or.inl ⟨d, r, rfl, hr⟩
      | none =>
        cases htit : truthyGet entry ("title") with
        | some t =>
          cases hrt : src.search_by_title t with
          | some r =>
            apply iff_of_true
            · simp [trySource, hdoi, hr, htit, hrt]
            · exact Or.inr ⟨t, r, rfl, hrt⟩
          | none =>
            apply iff_of_false
            · simp [trySource, hdoi, hr, htit, hrt]
            · rintro (⟨d2, r2, hd2, hr2⟩ | ⟨t2, r2, ht2, hr2⟩)
              · cases hd2
                rw [hr] at hr2
                cases hr2
              · cases ht2
                rw [hrt] at hr2
                cases hr2
        | none =>
          apply iff_of_false
          · simp [trySource, hdoi, hr, htit]
          · rintro (⟨d2, r2, hd2, hr2⟩ | ⟨t2, r2, ht2, hr2⟩)
            · cases hd2
              rw [hr] at hr2
              cases hr2
            · cases ht2
    | none =>
      cases htit : truthyGet entry ("title") with
      | some t =>
        cases hrt : src.search_by_title t with
        | some r =>
          apply iff_of_true
          · simp [trySource, hdoi, htit, hrt]
          · exact Or.inr ⟨t, r, rfl, hrt⟩
        | none =>
          apply iff_of_false
          · simp [trySource, hdoi, htit, hrt]
          · rintro (⟨d2, r2, hd2, hr2⟩ | ⟨t2, r2, ht2, hr2⟩)
            · cases hd2
            · cases ht2
              rw [hrt] at hr2
              cases hr2
      | none =>
        apply iff_of_false
        · simp [trySource, hdoi, htit]
        · rintro (⟨d2, r2, hd2, hr2⟩ | ⟨t2, r2, ht2, hr2⟩)
          · cases hd2
          · cases ht2

/-- C10: the Scholar source's DOI search returns `None` for every input, so
every match recorded for the scholar source carries search method
`scholar:Title`. -/
theorem c10_scholar_title_only :
    (∀ (ρ : Type) (stitle : String → Option ρ) (ext : ρ → FieldMap) (d : String),
        (mkScholarSource stitle ext).search_by_doi d = none)
    ∧ (∀ (ρ : Type) (sources : List (String × Source ρ)) (stitle : String → Option ρ)
        (ext : ρ → FieldMap) (entry : Entry) (m : SMatch ρ),
        List.lookup ("scholar") sources = some (mkScholarSource stitle ext) →
        List.lookup ("scholar") (validate_entry sources entry).matchesList = some m →
          m.search_method = some ("scholar:Title")) := by
  refine ⟨fun ρ stitle ext d => rfl, ?_⟩
  intro ρ sources stitle ext entry m hs hm
  rw [lookup_matchesList sources entry ("scholar") (by decide)] at hm
  have hps : perSource sources entry ("scholar")
      = if ((mkScholarSource stitle ext).should_attempt entry).1 then
          trySource ("scholar") (mkScholarSource stitle ext) entry
        else none := by
    unfold perSource
    rw [hs]
  rw [hps] at hm
  by_cases hatt : ((mkScholarSource stitle ext).should_attempt entry).1
  · rw [if_pos hatt] at hm
    have hdd : ∀ d, (mkScholarSource stitle ext).search_by_doi d = none := fun d => rfl
    have htt : ∀ t, (mkScholarSource stitle ext).search_by_title t = stitle t :=
      fun t => rfl
    cases hdoi : truthyGet entry ("doi") with
    | some d =>
      cases htit : truthyGet entry ("title") with
      | some t =>
        cases hrt : stitle t with
        | some r =>
          simp only [trySource, hdoi, hdd, htit, htt, hrt] at hm
          cases hm
          rfl
        | none =>
          simp only [trySource, hdoi, hdd, htit, htt, hrt] at hm
          cases hm
      | none =>
          simp only [trySource, hdoi, hdd, htit] at hm
          cases hm
    | none =>
      cases htit : truthyGet entry ("title") with
      | some t =>
        cases hrt : stitle t with
        | some r =>
          simp only [trySource, hdoi, htit, htt, hrt] at hm
          cases hm
          rfl
        | none =>
          simp only [trySource, hdoi, htit, htt, hrt] at hm
          cases hm
      | none =>
          simp only [trySource, hdoi, htit] at hm
          cases hm
  · rw [if_neg hatt] at hm
    cases hm

lemma ve_status_cases {ρ : Type} (sources : List (String × Source ρ)) (e : Entry) :
    (validate_entry sources e).status = ("validated")
    ∨ (validate_entry sources e).status = ("mismatch")
    ∨ (validate_entry sources e).status = ("not_found") := by
  rw [ve_eq]
  unfold veAbs
  by_cases h : (sourceMatches sources e).isEmpty
  · rw [if_pos h]
    right; right; rfl
  · rw [if_neg h]
    by_cases h2 : (dedupFirst (((sourceMatches sources e).map (fun p =>
        (compare_with_corrected e p.2.corrected_fields).map
          (fun i => strUpper p.1 ++ (": ") ++ i))).flatten)).isEmpty
    · left; simp [h2]
    · right; left; simp [h2]

lemma ve_validated_iff {ρ : Type} (sources : List (String × Source ρ)) (e : Entry) :
    (validate_entry sources e).status = ("validated")
      ↔ ((validate_entry sources e).matchesList ≠ []
          ∧ (validate_entry sources e).issues = []) := by
  rw [ve_matchesList, ve_eq]
  unfold veAbs
  by_cases h : (sourceMatches sources e).isEmpty
  · rw [if_pos h]
    apply iff_of_false
    · show ¬ (("not_found" : String) = ("validated"))
      decide
    · intro hc
      exact hc.1 (List.isEmpty_iff.mp h)
  · rw [if_neg h]
    by_cases h2 : (dedupFirst (((sourceMatches sources e).map (fun p =>
        (compare_with_corrected e p.2.corrected_fields).map
          (fun i => strUpper p.1 ++ (": ") ++ i))).flatten)).isEmpty
    · apply iff_of_true
      · show (if (dedupFirst (((sourceMatches sources e).map (fun p =>
            (compare_with_corrected e p.2.corrected_fields).map
              (fun i => strUpper p.1 ++ (": ") ++ i))).flatten)).isEmpty
            then ("validated") else ("mismatch")) = ("validated")
        rw [if_pos h2]
      · constructor
        · intro hc
          rw [hc] at h
          exact h rfl
        · show dedupFirst (((sourceMatches sources e).map (fun p =>
            (compare_with_corrected e p.2.corrected_fields).map
              (fun i => strUpper p.1 ++ (": ") ++ i))).flatten) = []
          exact List.isEmpty_iff.mp h2
    · apply iff_of_false
      · show ¬ ((if (dedupFirst (((sourceMatches sources e).map (fun p =>
            (compare_with_corrected e p.2.corrected_fields).map
              (fun i => strUpper p.1 ++ (": ") ++ i))).flatten)).isEmpty
            then ("validated") else ("mismatch")) = ("validated"))
        rw [if_neg h2]
        decide
      · intro hc
        have hc2 : dedupFirst (((sourceMatches sources e).map (fun p =>
            (compare_with_corrected e p.2.corrected_fields).map
              (fun i => strUpper p.1 ++ (": ") ++ i))).flatten) = [] := hc.2
        rw [hc2] at h2
        exact h2 rfl

lemma classify_fold {ρ : Type} (sources : List (String × Source ρ)) :
    ∀ (entries : List Entry) (acc : BatchResults ρ),
      entries.foldl (classifyStep sources) acc
        = ⟨acc.validated ++ (entries.map (validate_entry sources)).filter
              (fun r => r.status == ("validated")),
           acc.mismatches ++ (entries.map (validate_entry sources)).filter
              (fun r => r.status == ("mismatch")),
           acc.not_found ++ (entries.map (validate_entry sources)).filter
              (fun r => r.status == ("not_found"))⟩
  | [], acc => by simp
  | e :: es, acc => by
    have d1 : ¬ (("validated" : String) = ("mismatch")) := by decide
    have d2 : ¬ (("validated" : String) = ("not_found")) := by decide
    have d3 : ¬ (("mismatch" : String) = ("validated")) := by decide
    have d4 : ¬ (("mismatch" : String) = ("not_found")) := by decide
    have d5 : ¬ (("not_found" : String) = ("validated")) := by decide
    have d6 : ¬ (("not_found" : String) = ("mismatch")) := by decide
    rw [List.foldl_cons, classify_fold sources es]
    rcases ve_status_cases sources e with h | h | h <;>
      simp [classifyStep, h, List.filter_cons, d1, d2, d3, d4, d5, d6]

lemma filter_three_length {ρ : Type} : ∀ (rs : List (VResult ρ)),
    (∀ r ∈ rs, r.status = ("validated") ∨ r.status = ("mismatch")
      ∨ r.status = ("not_found")) →
    (rs.filter (fun r => r.status == ("validated"))).length
      + (rs.filter (fun r => r.status == ("mismatch"))).length
      + (rs.filter (fun r => r.status == ("not_found"))).length = rs.length
  | [], _ => rfl
  | r :: rs, h => by
    have d1 : ¬ (("validated" : String) = ("mismatch")) := by decide
    have d2 : ¬ (("validated" : String) = ("not_found")) := by decide
    have d3 : ¬ (("mismatch" : String) = ("validated")) := by decide
    have d4 : ¬ (("mismatch" : String) = ("not_found")) := by decide
    have d5 : ¬ (("not_found" : String) = ("validated")) := by decide
    have d6 : ¬ (("not_found" : String) = ("mismatch")) := by decide
    have ih := filter_three_length rs (fun x hx => h x (List.mem_cons_of_mem r hx))
    rcases h r (List.mem_cons_self r rs) with hr | hr | hr <;>
      simp [List.filter_cons, hr, d1, d2, d3, d4, d5, d6] <;> omega

/-- C5: batch validation partitions the input: the three buckets are exactly
the status-filtered per-entry results in input order, their sizes sum to the
number of entries, every per-entry result has one of the three statuses, and
a result is `validated` exactly when it has at least one match and an empty
issue list. -/
theorem c5_batch_partition {ρ : Type} (sources : List (String × Source ρ))
    (entries : List Entry) :
    (validate_all sources entries).validated
        = (entries.map (validate_entry sources)).filter (fun r => r.status == ("validated"))
    ∧ (validate_all sources entries).mismatches
        = (entries.map (validate_entry sources)).filter (fun r => r.status == ("mismatch"))
    ∧ (validate_all sources entries).not_found
        = (entries.map (validate_entry sources)).filter (fun r => r.status == ("not_found"))
    ∧ (validate_all sources entries).validated.length
        + (validate_all sources entries).mismatches.length
        + (validate_all sources entries).not_found.length = entries.length
    ∧ (∀ e : Entry, (validate_entry sources e).status = ("validated")
        ∨ (validate_entry sources e).status = ("mismatch")
        ∨ (validate_entry sources e).status = ("not_found"))
    ∧ (∀ e : Entry, (validate_entry sources e).status = ("validated")
        ↔ ((validate_entry sources e).matchesList ≠ []
            ∧ (validate_entry sources e).issues = [])) := by
  have hall : validate_all sources entries
      = ⟨(entries.map (validate_entry sources)).filter (fun r => r.status == ("validated")),
         (entries.map (validate_entry sources)).filter (fun r => r.status == ("mismatch")),
         (entries.map (validate_entry sources)).filter
           (fun r => r.status == ("not_found"))⟩ := by
    unfold validate_all
    rw [classify_fold sources entries ⟨[], [], []⟩]
    simp
  refine ⟨by rw [hall], by rw [hall], by rw [hall], ?_, fun e => ve_status_cases sources e,
    fun e => ve_validated_iff sources e⟩
  rw [hall]
  have hm : (entries.map (validate_entry sources)).length = entries.length :=
    List.length_map entries (validate_entry sources)
  rw [← hm]
  apply filter_three_length
  intro r hr
  obtain ⟨e, _, he⟩ := List.mem_map.mp hr
  rw [← he]
  exact ve_status_cases sources e

def w1dblp : Source Unit :=
  mkDblpSource (fun _ => some ()) (fun _ => some ()) (fun _ => [(("year"), ("2001"))])

def w1sem : Source Unit :=
  mkSemanticSource (fun _ => some ()) (fun _ => some ())
    (fun _ => [(("year"), ("2001")), (("venue"), ("CORR"))])

def w1sources : List (String × Source Unit) := [(("dblp"), w1dblp), (("semantic"), w1sem)]

def w1entry : Entry :=
  [(("ID"), ("w1")), (("title"), ("Astra")), (("doi"), ("10.1/x")), (("year"), ("2001"))]

/-- Witness for C1 at a concrete registry where both dblp and semantic match
and semantic's FieldMap is strictly larger. -/
theorem c1_priority_selection_witness :
    (validate_entry w1sources w1entry).matchesList ≠ []
    ∧ ∃ pre n post m,
      DEFAULT_ORDER = pre ++ n :: post
      ∧ (∀ p ∈ pre, List.lookup p (validate_entry w1sources w1entry).matchesList = none)
      ∧ List.lookup n (validate_entry w1sources w1entry).matchesList = some m
      ∧ (validate_entry w1sources w1entry).corrected_fields = m.corrected_fields
      ∧ (validate_entry w1sources w1entry).search_method = m.search_method
      ∧ (validate_entry w1sources w1entry).issues
          = dedupFirst (((validate_entry w1sources w1entry).matchesList.map (fun p =>
              (compare_with_corrected w1entry p.2.corrected_fields).map
                (fun i => strUpper p.1 ++ (": ") ++ i))).flatten) :=
  ⟨by decide, c1_priority_selection w1sources w1entry (by decide)⟩

def w2entry : Entry := [(("ID"), ("w2")), (("ENTRYTYPE"), ("article"))]

def w2sources : List (String × Source Unit) :=
  defaultSources (fun _ => some ()) (fun _ => some ()) (fun _ => [(("year"), ("1999"))])
    (fun _ => some ()) (fun _ => []) (fun _ => some ()) (fun _ => some ()) (fun _ => [])

/-- Witness for C2 at an entry with neither DOI nor title, with search
functions that would all report hits if they were consulted. -/
theorem c2_not_found_witness :
    truthyGet w2entry ("doi") = none ∧ truthyGet w2entry ("title") = none
    ∧ (validate_entry w2sources w2entry).matchesList = []
    ∧ (validate_entry w2sources w2entry).status = ("not_found")
    ∧ (validate_entry w2sources w2entry).issues = [("Entry not found in any source")] :=
  ⟨rfl, rfl,
   (c2_not_found.2 Unit (fun _ => some ()) (fun _ => some ()) (fun _ => [(("year"), ("1999"))])
     (fun _ => some ()) (fun _ => []) (fun _ => some ()) (fun _ => some ()) (fun _ => [])
     w2entry rfl rfl).1,
   (c2_not_found.2 Unit (fun _ => some ()) (fun _ => some ()) (fun _ => [(("year"), ("1999"))])
     (fun _ => some ()) (fun _ => []) (fun _ => some ()) (fun _ => some ()) (fun _ => [])
     w2entry rfl rfl).2.1,
   (c2_not_found.2 Unit (fun _ => some ()) (fun _ => some ()) (fun _ => [(("year"), ("1999"))])
     (fun _ => some ()) (fun _ => []) (fun _ => some ()) (fun _ => some ()) (fun _ => [])
     w2entry rfl rfl).2.2.1⟩

def w3src : Source Unit :=
  mkSemanticSource (fun _ => some ()) (fun _ => none) (fun _ => [(("title"), ("Zeta"))])

def w3sources : List (String × Source Unit) := [(("semantic"), w3src)]

def w3entry : Entry := [(("ID"), ("w3")), (("title"), ("Zeta")), (("doi"), ("10.2/z"))]

/-- Witness for C3 at a concrete source whose DOI search succeeds. -/
theorem c3_search_strategy_witness :
    List.lookup ("semantic") (validate_entry w3sources w3entry).matchesList
        = trySource ("semantic") w3src w3entry
    ∧ (∀ d r, truthyGet w3entry ("doi") = some d → w3src.search_by_doi d = some r →
        trySource ("semantic") w3src w3entry
          = some ⟨some (("semantic") ++ (":DOI")), r, w3src.extract_bibtex_fields r⟩)
    ∧ (∀ t, truthyGet w3entry ("title") = some t →
        (truthyGet w3entry ("doi") = none ∨
          ∃ d, truthyGet w3entry ("doi") = some d ∧ w3src.search_by_doi d = none) →
        trySource ("semantic") w3src w3entry
          = (w3src.search_by_title t).map
              (fun r => ⟨some (("semantic") ++ (":Title")), r, w3src.extract_bibtex_fields r⟩))
    ∧ ((trySource ("semantic") w3src w3entry).isSome
        ↔ (∃ d r, truthyGet w3entry ("doi") = some d ∧ w3src.search_by_doi d = some r)
          ∨ (∃ t r, truthyGet w3entry ("title") = some t
              ∧ w3src.search_by_title t = some r)) :=
  c3_search_strategy w3sources w3entry ("semantic") w3src (by decide) rfl (by decide)

def w10src : Source Unit := mkScholarSource (fun _ => some ()) (fun _ => [])

def w10sources : List (String × Source Unit) := [(("scholar"), w10src)]

def w10entry : Entry := [(("ID"), ("w10")), (("title"), ("Beta")), (("doi"), ("10.3/b"))]

def w10m : SMatch Unit := ⟨some ("scholar:Title"), (), []⟩

/-- Witness for C10: an entry with a DOI still yields a scholar match found by
title, with method `scholar:Title`. -/
theorem c10_scholar_title_only_witness :
    (w10src.search_by_doi ("10.3/b") = none)
    ∧ List.lookup ("scholar") (validate_entry w10sources w10entry).matchesList = some w10m
    ∧ w10m.search_method = some ("scholar:Title") :=
  ⟨c10_scholar_title_only.1 Unit (fun _ => some ()) (fun _ => []) ("10.3/b"),
   by decide,
   c10_scholar_title_only.2 Unit w10sources (fun _ => some ()) (fun _ => []) w10entry w10m
     rfl (by decide)⟩

/-- C4: author handling of `compare_with_corrected`. With the author key on
both sides, a count difference yields exactly one count-mismatch issue;
with equal counts, one combined issue listing the below-0.75 pairs is emitted
when one to three pairs mismatch, and no author issue at all otherwise. -/
theorem c4_author_comparison (original corrected : Entry)
    (ho : (List.lookup ("author") original).isSome = true)
    (hc : (List.lookup ("author") corrected).isSome = true) :
    compare_with_corrected original corrected
      = compare_auth original corrected ++ compare_venue original corrected
        ++ compare_year original corrected ++ compare_title original corrected
    ∧ ((authorsField original).length ≠ (authorsField corrected).length →
        compare_auth original corrected
          = [("AUTHORS: Different count (") ++ toString (authorsField original).length
              ++ (" vs ") ++ toString (authorsField corrected).length ++ (")")])
    ∧ ((authorsField original).length = (authorsField corrected).length →
        (authorMismatches original corrected = [] → compare_auth original corrected = [])
        ∧ (authorMismatches original corrected ≠ [] →
            (authorMismatches original corrected).length ≤ 3 →
            compare_auth original corrected
              = [("AUTHORS: ") ++ strJoinSep ("; ") (authorMismatches original corrected)])
        ∧ (3 < (authorMismatches original corrected).length →
            compare_auth original corrected = [])) := by
  refine ⟨rfl, ?_, ?_⟩
  · intro hne
    unfold compare_auth
    rw [if_pos (by rw [ho, hc]; rfl), if_pos hne]
  · intro heq
    refine ⟨?_, ?_, ?_⟩
    · intro hms
      unfold compare_auth
      rw [if_pos (by rw [ho, hc]; rfl), if_neg (by simp [heq])]
      simp [hms]
    · intro hne h3
      unfold compare_auth
      rw [if_pos (by rw [ho, hc]; rfl), if_neg (by simp [heq])]
      simp [hne, h3]
    · intro h3
      unfold compare_auth
      rw [if_pos (by rw [ho, hc]; rfl), if_neg (by simp [heq])]
      have : ¬ ((authorMismatches original corrected ≠ [])
          ∧ (authorMismatches original corrected).length ≤ 3) := by
        intro hcontra
        omega
      simp [this]

def w4orig : Entry := [(("author"), ("A Smith and B Jones")), (("year"), ("2001"))]

def w4corr : Entry := [(("author"), ("A Smith"))]

/-- Witness for C4 at the spec's example: author lists of sizes two and one
yield exactly the count-mismatch issue. -/
theorem c4_author_comparison_witness :
    (List.lookup ("author") w4orig).isSome = true
    ∧ (List.lookup ("author") w4corr).isSome = true
    ∧ (authorsField w4orig).length = 2 ∧ (authorsField w4corr).length = 1
    ∧ compare_auth w4orig w4corr = [("AUTHORS: Different count (2 vs 1)")]
    ∧ compare_with_corrected w4orig w4corr = [("AUTHORS: Different count (2 vs 1)")] := by
  have h := c4_author_comparison w4orig w4corr rfl rfl
  have h2 := h.2.1 (by decide)
  have h3 : compare_auth w4orig w4corr = [("AUTHORS: Different count (2 vs 1)")] := by
    rw [h2]; decide
  refine ⟨rfl, rfl, by decide, by decide, h3, ?_⟩
  rw [h.1, h3]
  decide

lemma dictSet_lookup_self (e : Entry) (k v : String) :
    List.lookup k (dictSet e k v) = some v := by
  unfold dictSet
  by_cases h : (List.lookup k e).isSome
  · rw [if_pos h]
    induction e with
    | nil => simp at h
    | cons p ps ih =>
      obtain ⟨p1, p2⟩ := p
      by_cases hp : p1 = k
      · subst hp
        simp [List.lookup_cons]
      · have hbeq : (k == p1) = false := by
          simp only [beq_eq_false_iff_ne, ne_eq]
          intro hk
          exact hp hk.symm
        rw [List.lookup_cons, hbeq] at h
        simp only [List.map_cons, if_neg hp, List.lookup_cons, hbeq]
        exact ih h
  · rw [if_neg h]
    induction e with
    | nil => simp
    | cons p ps ih =>
      obtain ⟨p1, p2⟩ := p
      have hbeq : (k == p1) = false := by
        by_cases hp : k = p1
        · subst hp
          simp [List.lookup_cons] at h
        · simp [hp]
      rw [List.lookup_cons, hbeq] at h
      simp only [List.cons_append, List.lookup_cons, hbeq]
      exact ih h

lemma dictSet_lookup_other (e : Entry) (k v k' : String) (h : k' ≠ k) :
    List.lookup k' (dictSet e k v) = List.lookup k' e := by
  unfold dictSet
  by_cases hs : (List.lookup k e).isSome
  · rw [if_pos hs]
    clear hs
    induction e with
    | nil => simp
    | cons p ps ih =>
      obtain ⟨p1, p2⟩ := p
      by_cases hp : p1 = k
      · subst hp
        have hbeq : (k' == p1) = false := by simp [h]
        simp [List.lookup_cons, hbeq, ih]
      · simp only [List.map_cons, if_neg hp, List.lookup_cons]
        cases hb : (k' == p1) <;> simp [ih]
  · rw [if_neg hs]
    clear hs
    induction e with
    | nil =>
      have hbeq : (k' == k) = false := by simp [h]
      simp [List.lookup_cons, hbeq]
    | cons p ps ih =>
      obtain ⟨p1, p2⟩ := p
      simp only [List.cons_append, List.lookup_cons]
      cases hb : (k' == p1) <;> simp [ih]

lemma fold_write_keeps (entry : Entry) (f : String)
    (hf2 : f ≠ ("journal")) (hf3 : f ≠ ("booktitle")) :
    ∀ (fm : List (String × String)) (acc : Entry), f ∉ fm.map Prod.fst →
      List.lookup f (applyFieldsAux entry fm acc) = List.lookup f acc
  | [], acc, _ => rfl
  | (g, w) :: fm, acc, hmem => by
    unfold applyFieldsAux
    rw [List.foldl_cons]
    show List.lookup f (applyFieldsAux entry fm _) = _
    have hg : f ≠ g := by
      intro he
      exact hmem (by rw [he]; exact List.mem_cons_self _ _)
    have hrest : f ∉ fm.map Prod.fst := fun hx => hmem (List.mem_cons_of_mem _ hx)
    rw [fold_write_keeps entry f hf2 hf3 fm _ hrest]
    by_cases hw : w ≠ ("")
    · rw [if_pos hw]
      by_cases hv : g = ("venue")
      · rw [if_pos hv]
        by_cases ha : List.lookup ("ENTRYTYPE") entry = some ("article")
        · rw [if_pos ha]
          exact dictSet_lookup_other acc ("journal") w f hf2
        · rw [if_neg ha]
          exact dictSet_lookup_other acc ("booktitle") w f hf3
      · rw [if_neg hv]
        exact dictSet_lookup_other acc g w f hg
    · rw [if_neg hw]

lemma fold_write_sets (entry : Entry) (f v : String) (hv : v ≠ (""))
    (hfv : f ≠ ("venue")) (hf2 : f ≠ ("journal")) (hf3 : f ≠ ("booktitle")) :
    ∀ (fm : List (String × String)) (acc : Entry), (f, v) ∈ fm →
      (fm.map Prod.fst).Nodup →
      List.lookup f (applyFieldsAux entry fm acc) = some v
  | [], _, hmem, _ => by simp at hmem
  | (g, w) :: fm, acc, hmem, hnd => by
    unfold applyFieldsAux
    rw [List.foldl_cons]
    show List.lookup f (applyFieldsAux entry fm _) = _
    rcases List.mem_cons.mp hmem with he | he
    · cases he
      have hnotin : f ∉ fm.map Prod.fst := by
        have := (List.nodup_cons.mp hnd).1
        simpa using this
      rw [fold_write_keeps entry f hf2 hf3 fm _ hnotin]
      rw [if_pos hv, if_neg hfv]
      exact dictSet_lookup_self acc f v
    · exact fold_write_sets entry f v hv hfv hf2 hf3 fm _ he (List.Nodup.of_cons hnd)

def x6src : Source Unit := mkScholarSource (fun _ => some ()) (fun _ => [])

def x6sources : List (String × Source Unit) := [(("scholar"), x6src)]

def x6entry : Entry := [(("ID"), ("e1")), (("title"), ("T"))]

def x6batch : BatchResults Unit := validate_all x6sources [x6entry]

/-- Counterexample to C6 as stated: a validated result whose corrected
FieldMap is empty still gets the provenance note written, so the entry is not
returned byte-identical even though no non-empty corrected FieldMap exists. -/
theorem c6_corrections_counterexample :
    ((x6batch.validated ++ x6batch.mismatches).map (fun r => r.id)) = [("e1")]
    ∧ ((x6batch.validated ++ x6batch.mismatches).map (fun r => r.corrected_fields)) = [[]]
    ∧ apply_corrections_to_entries [x6entry] x6batch.validated x6batch.mismatches
        = [[(("ID"), ("e1")), (("title"), ("T")), (("note"), ("Validated via scholar:Title"))]]
    ∧ apply_corrections_to_entries [x6entry] x6batch.validated x6batch.mismatches
        ≠ [x6entry] := by
  refine ⟨by decide, by decide, by decide, by decide⟩

lemma applyOne_not_found {ρ : Type} (results : List (VResult ρ)) (entry : Entry)
    (hfind : results.find? (fun r => List.lookup ("ID") entry == some r.id) = none) :
    applyOne results entry = entry := by
  unfold applyOne
  rw [hfind]

lemma applyOne_found {ρ : Type} (results : List (VResult ρ)) (entry : Entry)
    (r : VResult ρ)
    (hfind : results.find? (fun r => List.lookup ("ID") entry == some r.id) = some r) :
    applyOne results entry
      = dictSet (applyFieldsAux entry r.corrected_fields entry) ("note")
          (if entryGetD (applyFieldsAux entry r.corrected_fields entry) ("note") ("") ≠ ("")
           then entryGetD (applyFieldsAux entry r.corrected_fields entry) ("note") ("")
             ++ ("; ") ++ (("Validated via ") ++ methodString r.search_method)
           else ("Validated via ") ++ methodString r.search_method) := by
  unfold applyOne
  rw [hfind]

/-- C6 amended: the copy gets its corrected fields written and the provenance
note appended if and only if a result with the entry's id is found among
validated and mismatch results — even when that result's corrected FieldMap is
empty; every entry with no matching result is returned identical. -/
theorem c6_corrections_amended (ρ : Type) (entries : List Entry)
    (validated mismatches : List (VResult ρ)) :
    apply_corrections_to_entries entries validated mismatches
      = entries.map (applyOne (validated ++ mismatches))
    ∧ ∀ entry : Entry,
        ((validated ++ mismatches).find? (fun r => List.lookup ("ID") entry == some r.id)
            = none → applyOne (validated ++ mismatches) entry = entry)
        ∧ (∀ r, (validated ++ mismatches).find?
              (fun r => List.lookup ("ID") entry == some r.id) = some r →
            ∃ pre, List.lookup ("note") (applyOne (validated ++ mismatches) entry)
                = some (pre ++ (("Validated via ") ++ methodString r.search_method)))
        ∧ (∀ r f v, (validated ++ mismatches).find?
              (fun r => List.lookup ("ID") entry == some r.id) = some r →
            (f, v) ∈ r.corrected_fields → v ≠ ("") → f ≠ ("venue") → f ≠ ("note") →
            f ≠ ("journal") → f ≠ ("booktitle") →
            (r.corrected_fields.map Prod.fst).Nodup →
            List.lookup f (applyOne (validated ++ mismatches) entry) = some v) := by
  refine ⟨rfl, ?_⟩
  intro entry
  refine ⟨?_, ?_, ?_⟩
  · intro hfind
    exact applyOne_not_found _ entry hfind
  · intro r hfind
    rw [applyOne_found _ entry r hfind]
    by_cases hex : entryGetD (applyFieldsAux entry r.corrected_fields entry) ("note") ("")
        ≠ ("")
    · refine ⟨entryGetD (applyFieldsAux entry r.corrected_fields entry) ("note") ("")
        ++ ("; "), ?_⟩
      rw [if_pos hex]
      exact dictSet_lookup_self _ _ _
    · refine ⟨(""), ?_⟩
      rw [if_neg hex]
      rw [dictSet_lookup_self]
      rfl
  · intro r f v hfind hmem hv hfv hfn hfj hfb hnd
    rw [applyOne_found _ entry r hfind]
    rw [dictSet_lookup_other _ _ _ _ hfn]
    exact fold_write_sets entry f v hv hfv hfj hfb r.corrected_fields entry hmem hnd

def w6r : VResult Unit :=
  ⟨("a1"), ("Ti"), ("mismatch"), [("YEAR: 1999 vs 2020")], [(("year"), ("2020"))],
   some ("dblp:DOI"), [], []⟩

def w6e1 : Entry := [(("ID"), ("a1")), (("year"), ("1999")), (("ENTRYTYPE"), ("article"))]

def w6e2 : Entry := [(("ID"), ("zz")), (("year"), ("1980"))]

/-- Witness for the amended C6 at a concrete result list: the matching entry
gets its year overwritten and the note appended, the non-matching entry is
returned identical. -/
theorem c6_corrections_amended_witness :
    apply_corrections_to_entries [w6e1, w6e2] [] [w6r]
      = [applyOne ([] ++ [w6r]) w6e1, applyOne ([] ++ [w6r]) w6e2]
    ∧ applyOne ([] ++ [w6r]) w6e2 = w6e2
    ∧ (∃ pre, List.lookup ("note") (applyOne ([] ++ [w6r]) w6e1)
        = some (pre ++ (("Validated via ") ++ methodString w6r.search_method)))
    ∧ List.lookup ("year") (applyOne ([] ++ [w6r]) w6e1) = some ("2020") := by
  have h := c6_corrections_amended Unit [w6e1, w6e2] [] [w6r]
  refine ⟨h.1, (h.2 w6e2).1 (by decide), (h.2 w6e1).2.1 w6r (by decide), ?_⟩
  exact (h.2 w6e1).2.2 w6r ("year") ("2020") (by decide) (by decide) (by decide) (by decide)
    (by decide) (by decide) (by decide) (by decide)

/-! ### Structure of normalized strings (claims about normalize_string) -/

lemma toNat_ofNat_valid (n : ℕ) (h : n.isValidChar) : (Char.ofNat n).toNat = n := by
  unfold Char.ofNat
  rw [dif_pos h]
  rfl

lemma toLower_toNat_of_upper (c : Char) (h : 65 ≤ c.toNat ∧ c.toNat ≤ 90) :
    (Char.toLower c).toNat = c.toNat + 32 := by
  unfold Char.toLower
  rw [if_pos (by omega)]
  exact toNat_ofNat_valid (c.toNat + 32) (Or.inl (by omega))

lemma toLower_fix_of_not_upper (c : Char) (h : ¬(65 ≤ c.toNat ∧ c.toNat ≤ 90)) :
    Char.toLower c = c := by
  unfold Char.toLower
  rw [if_neg (by omega)]

lemma toLower_idem (c : Char) : Char.toLower (Char.toLower c) = Char.toLower c := by
  by_cases h : 65 ≤ c.toNat ∧ c.toNat ≤ 90
  · have hv := toLower_toNat_of_upper c h
    exact toLower_fix_of_not_upper _ (by omega)
  · rw [toLower_fix_of_not_upper c h, toLower_fix_of_not_upper c h]

lemma word_not_space (c : Char) (h : isWordChar c = true) : isPySpace c = false := by
  cases hs : isPySpace c with
  | false => rfl
  | true =>
    exfalso
    simp only [isPySpace, Bool.or_eq_true, beq_iff_eq] at hs
    rcases hs with ((((h1 | h1) | h1) | h1) | h1) | h1 <;> subst h1 <;>
      exact absurd h (by decide)

lemma word_char_class (c : Char) (hw : isWordChar c = true) (hl : Char.toLower c = c) :
    (c.isLower ∨ c.isDigit ∨ c = '_') ∧ c ≠ ' ' := by
  constructor
  · simp only [isWordChar, Char.isAlphanum, Char.isAlpha, Bool.or_eq_true,
      beq_iff_eq] at hw
    rcases hw with (hab | hd) | hu
    · rcases hab with hup | hlo
      · exfalso
        simp only [Char.isUpper] at hup
        have hb : 65 ≤ c.toNat ∧ c.toNat ≤ 90 := by
          simp only [Bool.and_eq_true, decide_eq_true_eq] at hup
          obtain ⟨h1, h2⟩ := hup
          constructor
          · exact h1
          · exact h2
        have := toLower_toNat_of_upper c hb
        rw [hl] at this
        omega
      · exact Or.inl hlo
    · exact Or.inr (Or.inl hd)
    · exact Or.inr (Or.inr hu)
  · intro he
    subst he
    exact absurd hw (by decide)

lemma mapFix {α : Type} (f : α → α) : ∀ (l : List α), (∀ c ∈ l, f c = c) → l.map f = l
  | [], _ => rfl
  | c :: cs, h => by
    rw [List.map_cons, h c (List.mem_cons_self c cs),
      mapFix f cs (fun x hx => h x (List.mem_cons_of_mem c hx))]

lemma filterKeep {α : Type} (p : α → Bool) : ∀ (l : List α), (∀ c ∈ l, p c = true) →
    l.filter p = l
  | [], _ => rfl
  | c :: cs, h => by
    rw [List.filter_cons, if_pos (h c (List.mem_cons_self c cs)),
      filterKeep p cs (fun x hx => h x (List.mem_cons_of_mem c hx))]

lemma takeWhile_all {α : Type} (p : α → Bool) : ∀ (l : List α), (∀ c ∈ l, p c = true) →
    l.takeWhile p = l
  | [], _ => rfl
  | c :: cs, h => by
    rw [List.takeWhile_cons, if_pos (h c (List.mem_cons_self c cs)),
      takeWhile_all p cs (fun x hx => h x (List.mem_cons_of_mem c hx))]

lemma dropWhile_all {α : Type} (p : α → Bool) : ∀ (l : List α), (∀ c ∈ l, p c = true) →
    l.dropWhile p = []
  | [], _ => rfl
  | c :: cs, h => by
    rw [List.dropWhile_cons, if_pos (h c (List.mem_cons_self c cs)),
      dropWhile_all p cs (fun x hx => h x (List.mem_cons_of_mem c hx))]

lemma takeWhile_append_stop {α : Type} (p : α → Bool) (y : α) (r : List α)
    (hy : p y = false) : ∀ (t : List α), (∀ c ∈ t, p c = true) →
    (t ++ y :: r).takeWhile p = t
  | [], _ => by simp [List.takeWhile_cons, hy]
  | c :: cs, h => by
    rw [List.cons_append, List.takeWhile_cons, if_pos (h c (List.mem_cons_self c cs)),
      takeWhile_append_stop p y r hy cs (fun x hx => h x (List.mem_cons_of_mem c hx))]

lemma dropWhile_append_stop {α : Type} (p : α → Bool) (y : α) (r : List α)
    (hy : p y = false) : ∀ (t : List α), (∀ c ∈ t, p c = true) →
    (t ++ y :: r).dropWhile p = y :: r
  | [], _ => by simp [List.dropWhile_cons, hy]
  | c :: cs, h => by
    rw [List.cons_append, List.dropWhile_cons, if_pos (h c (List.mem_cons_self c cs)),
      dropWhile_append_stop p y r hy cs (fun x hx => h x (List.mem_cons_of_mem c hx))]

lemma splitWsGo_nil : ∀ (fuel : ℕ), splitWsGo fuel [] = []
  | 0 => rfl
  | _ + 1 => rfl

lemma splitWsGo_tokens : ∀ (fuel : ℕ) (l : List Char), l.length ≤ fuel →
    ∀ t ∈ splitWsGo fuel l, t ≠ [] ∧ ∀ c ∈ t, isPySpace c = false ∧ c ∈ l
  | 0, l, hl => by
    simp only [splitWsGo]
    intro t ht
    simp at ht
  | fuel + 1, [], _ => by
    intro t ht
    simp [splitWsGo] at ht
  | fuel + 1, c :: cs, hl => by
    intro t ht
    simp only [splitWsGo] at ht
    by_cases hc : isPySpace c
    · rw [if_pos hc] at ht
      have hlen : cs.length ≤ fuel := by
        simp only [List.length_cons] at hl
        omega
      obtain ⟨h1, h2⟩ := splitWsGo_tokens fuel cs hlen t ht
      exact ⟨h1, fun x hx => ⟨(h2 x hx).1, List.mem_cons_of_mem c (h2 x hx).2⟩⟩
    · rw [if_neg hc] at ht
      rcases List.mem_cons.mp ht with he | he
      · subst he
        refine ⟨by simp, ?_⟩
        intro x hx
        rcases List.mem_cons.mp hx with hxe | hxe
        · subst hxe
          exact ⟨by simpa using hc, List.mem_cons_self _ _⟩
        · have hsub : List.Sublist (cs.takeWhile (fun d => !(isPySpace d))) cs :=
            List.takeWhile_sublist _
          have hxcs : x ∈ cs := hsub.mem hxe
          have hpx := List.mem_takeWhile_imp hxe
          simp only [Bool.not_eq_true'] at hpx
          exact ⟨hpx, List.mem_cons_of_mem c hxcs⟩
      · have hlen : (cs.dropWhile (fun d => !(isPySpace d))).length ≤ fuel := by
          have hle : (cs.dropWhile (fun d => !(isPySpace d))).length ≤ cs.length :=
            (List.dropWhile_suffix _).length_le
          simp only [List.length_cons] at hl
          omega
        obtain ⟨h1, h2⟩ := splitWsGo_tokens fuel _ hlen t he
        refine ⟨h1, fun x hx => ⟨(h2 x hx).1, ?_⟩⟩
        have hsub : List.IsSuffix (cs.dropWhile (fun d => !(isPySpace d))) cs :=
          List.dropWhile_suffix _
        exact List.mem_cons_of_mem c (hsub.sublist.mem (h2 x hx).2)

lemma splitWsGo_joinSp : ∀ (ts : List (List Char)) (fuel : ℕ),
    (joinSp ts).length ≤ fuel →
    (∀ t ∈ ts, t ≠ [] ∧ ∀ c ∈ t, isPySpace c = false) →
    splitWsGo fuel (joinSp ts) = ts
  | [], fuel, _, _ => by rw [joinSp, splitWsGo_nil]
  | [t], fuel, hl, hts => by
    obtain ⟨hne, hch⟩ := hts t (List.mem_cons_self t [])
    obtain ⟨c, cs, rfl⟩ := List.exists_cons_of_ne_nil hne
    have hj : joinSp [c :: cs] = c :: cs := rfl
    rw [hj] at hl ⊢
    obtain ⟨fuel2, rfl⟩ : ∃ f2, fuel = f2 + 1 := by
      cases fuel with
      | zero => simp at hl
      | succ n => exact ⟨n, rfl⟩
    simp only [splitWsGo]
    rw [if_neg (by simp [hch c (List.mem_cons_self c cs)])]
    rw [takeWhile_all _ cs (fun x hx => by
      simp [hch x (List.mem_cons_of_mem c hx)])]
    rw [dropWhile_all _ cs (fun x hx => by
      simp [hch x (List.mem_cons_of_mem c hx)])]
    rw [splitWsGo_nil]
  | t :: t2 :: ts, fuel, hl, hts => by
    obtain ⟨hne, hch⟩ := hts t (List.mem_cons_self t _)
    obtain ⟨c, cs, rfl⟩ := List.exists_cons_of_ne_nil hne
    have hj : joinSp ((c :: cs) :: t2 :: ts) = c :: (cs ++ ' ' :: joinSp (t2 :: ts)) := rfl
    rw [hj] at hl ⊢
    obtain ⟨fuel2, rfl⟩ : ∃ f2, fuel = f2 + 1 := by
      cases fuel with
      | zero => simp at hl
      | succ n => exact ⟨n, rfl⟩
    simp only [splitWsGo]
    rw [if_neg (by simp [hch c (List.mem_cons_self c cs)])]
    have hcs : ∀ x ∈ cs, (fun d => !(isPySpace d)) x = true := fun x hx => by
      simp [hch x (List.mem_cons_of_mem c hx)]
    rw [takeWhile_append_stop _ ' ' _ (by simp [isPySpace]) cs hcs]
    rw [dropWhile_append_stop _ ' ' _ (by simp [isPySpace]) cs hcs]
    obtain ⟨fuel3, rfl⟩ : ∃ f3, fuel2 = f3 + 1 := by
      cases fuel2 with
      | zero =>
        simp only [List.length_cons, List.length_append] at hl
        omega
      | succ n => exact ⟨n, rfl⟩
    simp only [splitWsGo]
    rw [if_pos (by simp [isPySpace])]
    have hlen3 : (joinSp (t2 :: ts)).length ≤ fuel3 := by
      simp only [List.length_cons, List.length_append, List.length_cons] at hl
      omega
    rw [splitWsGo_joinSp (t2 :: ts) fuel3 hlen3
      (fun x hx => hts x (List.mem_cons_of_mem (c :: cs) hx))]

lemma latexStripGo_id : ∀ (fuel : ℕ) (l : List Char), (∀ c ∈ l, (c == '\\') = false) →
    latexStripGo fuel l = l
  | 0, l, _ => rfl
  | _ + 1, [], _ => rfl
  | fuel + 1, c :: cs, h => by
    simp only [latexStripGo]
    rw [if_neg (by simp [h c (List.mem_cons_self c cs)])]
    rw [latexStripGo_id fuel cs (fun x hx => h x (List.mem_cons_of_mem c hx))]

lemma joinSp_mem : ∀ (ts : List (List Char)) (c : Char), c ∈ joinSp ts →
    c = ' ' ∨ ∃ t ∈ ts, c ∈ t
  | [], c, h => by simp [joinSp] at h
  | [t], c, h => by
    have hj : joinSp [t] = t := rfl
    rw [hj] at h
    exact Or.inr ⟨t, List.mem_cons_self t [], h⟩
  | t :: t2 :: ts, c, h => by
    have hj : joinSp (t :: t2 :: ts) = t ++ ' ' :: joinSp (t2 :: ts) := rfl
    rw [hj] at h
    rcases List.mem_append.mp h with h1 | h1
    · exact Or.inr ⟨t, List.mem_cons_self t _, h1⟩
    · rcases List.mem_cons.mp h1 with h2 | h2
      · exact Or.inl h2
      · rcases joinSp_mem (t2 :: ts) c h2 with h3 | ⟨u, hu, hcu⟩
        · exact Or.inl h3
        · exact Or.inr ⟨u, List.mem_cons_of_mem t hu, hcu⟩

/-- Every output of `normalizeList` is a single-space join of non-empty tokens
whose characters are word characters, fixed by lowercasing, and non-space. -/
lemma normalizeList_struct (l : List Char) :
    ∃ ts, normalizeList l = joinSp ts
      ∧ ∀ t ∈ ts, t ≠ [] ∧ ∀ c ∈ t,
          isWordChar c = true ∧ Char.toLower c = c ∧ isPySpace c = false := by
  refine ⟨splitWs (replaceNonWord (lowerList (removeBraces (latexStrip l)))), rfl, ?_⟩
  intro t ht
  obtain ⟨h1, h2⟩ := splitWsGo_tokens _ _ (le_refl _) t ht
  refine ⟨h1, ?_⟩
  intro c hc
  obtain ⟨hsp, hmem⟩ := h2 c hc
  have hword : isWordChar c = true := by
    obtain ⟨c0, hc0, hfc⟩ := List.mem_map.mp hmem
    by_cases hcond : (isWordChar c0 || isPySpace c0) = true
    · rw [if_pos hcond] at hfc
      subst hfc
      rcases Bool.or_eq_true_iff.mp hcond with hw | hs
      · exact hw
      · rw [hs] at hsp
        cases hsp
    · rw [if_neg hcond] at hfc
      subst hfc
      simp [isPySpace] at hsp
  refine ⟨hword, ?_, hsp⟩
  obtain ⟨c0, hc0, hfc⟩ := List.mem_map.mp hmem
  by_cases hcond : (isWordChar c0 || isPySpace c0) = true
  · rw [if_pos hcond] at hfc
    subst hfc
    obtain ⟨c1, _, hfc1⟩ := List.mem_map.mp hc0
    rw [← hfc1]
    exact toLower_idem c1
  · rw [if_neg hcond] at hfc
    subst hfc
    simp [isPySpace] at hsp

/-- `normalizeList` is idempotent: its output passes through every pipeline
stage unchanged except whitespace splitting, which recovers the same tokens. -/
lemma normalizeList_idem (l : List Char) :
    normalizeList (normalizeList l) = normalizeList l := by
  obtain ⟨ts, heq, hts⟩ := normalizeList_struct l
  rw [heq]
  have hmem : ∀ c ∈ joinSp ts,
      c = ' ' ∨ (isWordChar c = true ∧ Char.toLower c = c ∧ isPySpace c = false) := by
    intro c hc
    rcases joinSp_mem ts c hc with h | ⟨t, ht, hct⟩
    · exact Or.inl h
    · exact Or.inr ((hts t ht).2 c hct)
  have h1 : latexStrip (joinSp ts) = joinSp ts := by
    unfold latexStrip
    apply latexStripGo_id
    intro c hc
    rcases hmem c hc with h | ⟨hw, _, _⟩
    · subst h; rfl
    · simp only [beq_eq_false_iff_ne, ne_eq]
      intro he
      subst he
      exact absurd hw (by decide)
  have h2 : removeBraces (joinSp ts) = joinSp ts := by
    unfold removeBraces
    apply filterKeep
    intro c hc
    rcases hmem c hc with h | ⟨hw, _, _⟩
    · subst h; rfl
    · simp only [Bool.not_eq_true', Bool.or_eq_false_iff, beq_eq_false_iff_ne, ne_eq]
      constructor
      · intro he; subst he; exact absurd hw (by decide)
      · intro he; subst he; exact absurd hw (by decide)
  have h3 : lowerList (joinSp ts) = joinSp ts := by
    unfold lowerList
    apply mapFix
    intro c hc
    rcases hmem c hc with h | ⟨_, hl2, _⟩
    · subst h; decide
    · exact hl2
  have h4 : replaceNonWord (joinSp ts) = joinSp ts := by
    unfold replaceNonWord
    apply mapFix
    intro c hc
    rcases hmem c hc with h | ⟨hw, _, _⟩
    · subst h; decide
    · rw [if_pos (by rw [hw]; rfl)]
  have h5 : splitWs (joinSp ts) = ts := by
    unfold splitWs
    exact splitWsGo_joinSp ts _ (le_refl _)
      (fun t ht => ⟨(hts t ht).1, fun c hc => ((hts t ht).2 c hc).2.2⟩)
  unfold normalizeList
  rw [h1, h2, h3, h4, h5]

/-- C8: `normalize_string` is idempotent. -/
theorem c8_normalize_idempotent (s : String) :
    normalize_string (normalize_string s) = normalize_string s := by
  unfold normalize_string
  by_cases hs : s = ("")
  · rw [if_pos hs, if_pos rfl]
  · rw [if_neg hs]
    by_cases h2 : String.mk (normalizeList s.data) = ("")
    · rw [if_pos h2]
      exact h2.symm
    · rw [if_neg h2]
      show String.mk (normalizeList (normalizeList s.data)) = String.mk (normalizeList s.data)
      rw [normalizeList_idem]

/-- Counterexample to C7 as stated: `normalize_string` maps the underscore to
itself, and an underscore is neither a lowercase alphanumeric character nor a
space, because the regex keeps every `\w` character, which includes `_`. -/
theorem c7_normalize_counterexample :
    normalize_string ("_") = ("_")
    ∧ ¬(∀ c ∈ (normalize_string ("_")).data, (c.isLower ∨ c.isDigit) ∨ c = ' ') := by
  constructor
  · decide
  · intro h
    have := h '_' (by decide)
    revert this
    decide

/-- C7 amended: `normalize_string` of the empty string is empty, and every
output is a single-space join of non-empty tokens whose characters are
lowercase letters, digits, or underscores — word characters, not merely
alphanumerics. -/
theorem c7_normalize_amended (s : String) :
    (s = ("") → normalize_string s = (""))
    ∧ ∃ ts, (normalize_string s).data = joinSp ts
        ∧ ∀ t ∈ ts, t ≠ [] ∧ ∀ c ∈ t, (c.isLower ∨ c.isDigit ∨ c = '_') ∧ c ≠ ' ' := by
  constructor
  · intro hs
    rw [hs]
    rfl
  · unfold normalize_string
    by_cases hs : s = ("")
    · rw [if_pos hs]
      exact ⟨[], rfl, by simp⟩
    · rw [if_neg hs]
      obtain ⟨ts, heq, hts⟩ := normalizeList_struct s.data
      refine ⟨ts, heq, ?_⟩
      intro t ht
      refine ⟨(hts t ht).1, ?_⟩
      intro c hc
      obtain ⟨hw, hl2, _⟩ := (hts t ht).2 c hc
      exact word_char_class c hw hl2

/-- Witness for the amended C7 at the empty string and at a concrete mixed
input. -/
theorem c7_normalize_amended_witness :
    normalize_string ("") = ("")
    ∧ ∃ ts, (normalize_string ("a_B!")).data = joinSp ts
        ∧ ∀ t ∈ ts, t ≠ [] ∧ ∀ c ∈ t, (c.isLower ∨ c.isDigit ∨ c = '_') ∧ c ≠ ' ' :=
  ⟨(c7_normalize_amended ("")).1 rfl, (c7_normalize_amended ("a_B!")).2⟩

/-! ### The best block of find_longest_match on two equal sequences -/

/-- The DP chain value of `find_longest_match` at row `i`, column `j`, for the
self-comparison `a = b = l`: the value stored in `newj2len[j]` when `j` occurs
in `b2j[l[i]]`, and 0 otherwise. -/
def chainF (l : List Char) : ℕ → ℕ → ℕ
  | 0, j => if j ∈ b2jGet l (l.getD 0 ' ') then 1 else 0
  | i + 1, j =>
    if j ∈ b2jGet l (l.getD (i + 1) ' ') then
      (if j = 0 then 1 else chainF l i (j - 1) + 1)
    else 0

lemma mem_b2jGet_facts {l : List Char} {c : Char} {j : ℕ} (h : j ∈ b2jGet l c) :
    j < l.length ∧ l.getD j ' ' = c := by
  unfold b2jGet at h
  by_cases hp : 200 ≤ l.length ∧ l.length / 100 + 1 < (posList l c).length
  · rw [if_pos hp] at h
    simp at h
  · rw [if_neg hp] at h
    unfold posList at h
    obtain ⟨hr, hc⟩ := List.mem_filter.mp h
    exact ⟨List.mem_range.mp hr, by simpa using hc⟩

lemma self_mem_b2jGet {l : List Char} {i j : ℕ} (h : j ∈ b2jGet l (l.getD i ' '))
    (hi : i < l.length) : i ∈ b2jGet l (l.getD i ' ') := by
  unfold b2jGet at h ⊢
  by_cases hp : 200 ≤ l.length ∧
      l.length / 100 + 1 < (posList l (l.getD i ' ')).length
  · rw [if_pos hp] at h
    simp at h
  · rw [if_neg hp]
    unfold posList
    exact List.mem_filter.mpr ⟨List.mem_range.mpr hi, by simp⟩

lemma b2jGet_congr {l : List Char} {i j : ℕ} (h : j ∈ b2jGet l (l.getD i ' ')) :
    b2jGet l (l.getD j ' ') = b2jGet l (l.getD i ' ') := by
  rw [(mem_b2jGet_facts h).2]

lemma b2jGet_pairwise (l : List Char) (c : Char) :
    List.Pairwise (· < ·) (b2jGet l c) := by
  unfold b2jGet
  split
  · exact List.Pairwise.nil
  · exact (List.pairwise_lt_range _).filter _

lemma chainF_zero_eq (l : List Char) (j : ℕ) :
    chainF l 0 j = if j ∈ b2jGet l (l.getD 0 ' ') then 1 else 0 := rfl

lemma chainF_succ_eq (l : List Char) (i j : ℕ) :
    chainF l (i + 1) j
      = if j ∈ b2jGet l (l.getD (i + 1) ' ') then
          (if j = 0 then 1 else chainF l i (j - 1) + 1)
        else 0 := rfl

lemma chainF_zero_of_not_mem {l : List Char} {i j : ℕ}
    (h : j ∉ b2jGet l (l.getD i ' ')) : chainF l i j = 0 := by
  cases i with
  | zero => rw [chainF_zero_eq, if_neg h]
  | succ i => rw [chainF_succ_eq, if_neg h]

lemma chainF_le_fst (l : List Char) : ∀ i j, chainF l i j ≤ i + 1
  | 0, j => by
    by_cases h : j ∈ b2jGet l (l.getD 0 ' ')
    · rw [chainF_zero_eq, if_pos h]
    · rw [chainF_zero_eq, if_neg h]
      omega
  | i + 1, j => by
    by_cases h : j ∈ b2jGet l (l.getD (i + 1) ' ')
    · rw [chainF_succ_eq, if_pos h]
      by_cases hj : j = 0
      · rw [if_pos hj]; omega
      · rw [if_neg hj]
        have := chainF_le_fst l i (j - 1)
        omega
    · rw [chainF_succ_eq, if_neg h]; omega

lemma chainF_pos_mem {l : List Char} {i j : ℕ} (h : 0 < chainF l i j) :
    j ∈ b2jGet l (l.getD i ' ') := by
  by_contra hc
  rw [chainF_zero_of_not_mem hc] at h
  exact absurd h (by omega)

lemma chainF_le_diag_right (l : List Char) : ∀ j i, j ≤ i → chainF l i j ≤ chainF l j j
  | 0, i, _ => by
    by_cases h : 0 ∈ b2jGet l (l.getD i ' ')
    · have hm0 : 0 ∈ b2jGet l (l.getD 0 ' ') := by rw [b2jGet_congr h]; exact h
      cases i with
      | zero => exact le_refl _
      | succ i =>
        rw [chainF_succ_eq, if_pos h, if_pos rfl, chainF_zero_eq, if_pos hm0]
    · rw [chainF_zero_of_not_mem h]
      omega
  | j + 1, i, hle => by
    by_cases h : (j + 1) ∈ b2jGet l (l.getD i ' ')
    · obtain ⟨i2, rfl⟩ : ∃ i2, i = i2 + 1 := by
        cases i with
        | zero => omega
        | succ i2 => exact ⟨i2, rfl⟩
      have hmj : (j + 1) ∈ b2jGet l (l.getD (j + 1) ' ') := by
        rw [b2jGet_congr h]; exact h
      rw [chainF_succ_eq, if_pos h, if_neg (by omega), chainF_succ_eq, if_pos hmj,
        if_neg (by omega)]
      simp only [Nat.add_sub_cancel]
      have := chainF_le_diag_right l j i2 (by omega)
      omega
    · rw [chainF_zero_of_not_mem h]
      omega

lemma chainF_le_diag_left (l : List Char) : ∀ i j, i ≤ j → chainF l i j ≤ chainF l i i
  | 0, j, _ => by
    by_cases h : j ∈ b2jGet l (l.getD 0 ' ')
    · have hm0 : 0 ∈ b2jGet l (l.getD 0 ' ') :=
        self_mem_b2jGet h (by
          have := (mem_b2jGet_facts h).1
          omega)
      rw [chainF_zero_eq, if_pos h, chainF_zero_eq, if_pos hm0]
    · rw [chainF_zero_of_not_mem h]
      omega
  | i + 1, j, hle => by
    by_cases h : j ∈ b2jGet l (l.getD (i + 1) ' ')
    · have hmi : (i + 1) ∈ b2jGet l (l.getD (i + 1) ' ') :=
        self_mem_b2jGet h (by
          have := (mem_b2jGet_facts h).1
          omega)
      rw [chainF_succ_eq, if_pos h, if_neg (by omega), chainF_succ_eq, if_pos hmi,
        if_neg (by omega)]
      simp only [Nat.add_sub_cancel]
      have := chainF_le_diag_left l i (j - 1) (by omega)
      omega
    · rw [chainF_zero_of_not_mem h]
      omega

lemma stepK_eq_chain (l : List Char) (i : ℕ) (prev : List (ℕ × ℕ))
    (hprev : ∀ j, lookupD prev j = if i = 0 then 0 else chainF l (i - 1) j)
    {j : ℕ} (hj : j ∈ b2jGet l (l.getD i ' ')) :
    stepK prev j = chainF l i j := by
  unfold stepK
  cases i with
  | zero =>
    rw [chainF_zero_eq, if_pos hj]
    by_cases h0 : j = 0
    · rw [if_pos h0]
    · rw [if_neg h0, hprev (j - 1), if_pos rfl]
  | succ i =>
    rw [chainF_succ_eq, if_pos hj]
    by_cases h0 : j = 0
    · rw [if_pos h0, if_pos h0]
    · rw [if_neg h0, if_neg h0, hprev (j - 1), if_neg (Nat.succ_ne_zero i)]
      simp only [Nat.add_sub_cancel]

lemma innerLoop_fst (i n : ℕ) (prev : List (ℕ × ℕ)) :
    ∀ (L : List ℕ) (acc : List (ℕ × ℕ)) (best : ℕ × ℕ × ℕ),
      (∀ j ∈ L, j < n) →
      ∀ j, lookupD ((innerLoop i 0 n L prev acc best).1) j
        = if j ∈ L then stepK prev j else lookupD acc j
  | [], acc, best, _, j => by
    rw [show (innerLoop i 0 n [] prev acc best).1 = acc from rfl]
    rw [if_neg (List.not_mem_nil j)]
  | j0 :: L, acc, best, hn, j => by
    have hj0 : j0 < n := hn j0 (List.mem_cons_self _ _)
    have hstep : innerLoop i 0 n (j0 :: L) prev acc best
        = innerLoop i 0 n L prev ((j0, stepK prev j0) :: acc)
            (stepBest i j0 (stepK prev j0) best) := by
      conv_lhs => rw [innerLoop]
      rw [if_neg (Nat.not_lt_zero j0), if_neg (by omega)]
    rw [hstep]
    rw [innerLoop_fst i n prev L _ _ (fun x hx => hn x (List.mem_cons_of_mem _ hx)) j]
    by_cases hjL : j ∈ L
    · rw [if_pos hjL, if_pos (List.mem_cons_of_mem _ hjL)]
    · rw [if_neg hjL]
      by_cases hjj : j = j0
      · subst hjj
        rw [if_pos (List.mem_cons_self _ _)]
        unfold lookupD
        simp [List.lookup_cons]
      · rw [if_neg (by simp [hjj, hjL])]
        unfold lookupD
        have hb : (j == j0) = false := by simp [hjj]
        simp [List.lookup_cons, hb]

/-- Invariant carried by the inner and outer loops of `find_longest_match` on
a self-comparison: the best block lies on the diagonal, fits in the sequence,
and dominates every chain value of the rows already processed. -/
def bestInv (l : List Char) (i : ℕ) (b : ℕ × ℕ × ℕ) : Prop :=
  b.1 = b.2.1 ∧ b.1 + b.2.2 ≤ l.length ∧ ∀ i2 j, i2 < i → chainF l i2 j ≤ b.2.2

lemma innerLoop_snd_inv (l : List Char) (i : ℕ) (prev : List (ℕ × ℕ))
    (hi : i < l.length)
    (hprev : ∀ j, lookupD prev j = if i = 0 then 0 else chainF l (i - 1) j) :
    ∀ (L pre : List ℕ) (acc : List (ℕ × ℕ)) (best : ℕ × ℕ × ℕ),
      b2jGet l (l.getD i ' ') = pre ++ L →
      bestInv l i best →
      (∀ j ∈ pre, chainF l i j ≤ best.2.2) →
      bestInv l (i + 1) ((innerLoop i 0 l.length L prev acc best).2)
  | [], pre, acc, best, hsplit, hinv, hpre => by
    rw [show (innerLoop i 0 l.length [] prev acc best).2 = best from rfl]
    refine ⟨hinv.1, hinv.2.1, ?_⟩
    intro i2 j h2
    by_cases hij : i2 = i
    · subst hij
      by_cases hjm : j ∈ b2jGet l (l.getD i2 ' ')
      · refine hpre j ?_
        rw [List.append_nil] at hsplit
        rw [← hsplit]
        exact hjm
      · rw [chainF_zero_of_not_mem hjm]
        omega
    · exact hinv.2.2 i2 j (by omega)
  | j0 :: L, pre, acc, best, hsplit, hinv, hpre => by
    have hj0mem : j0 ∈ b2jGet l (l.getD i ' ') := by
      rw [hsplit]
      exact List.mem_append_right pre (List.mem_cons_self _ _)
    have hj0n : j0 < l.length := (mem_b2jGet_facts hj0mem).1
    have hstep : innerLoop i 0 l.length (j0 :: L) prev acc best
        = innerLoop i 0 l.length L prev ((j0, stepK prev j0) :: acc)
            (stepBest i j0 (stepK prev j0) best) := by
      conv_lhs => rw [innerLoop]
      rw [if_neg (Nat.not_lt_zero j0), if_neg (by omega)]
    rw [hstep]
    have hk : stepK prev j0 = chainF l i j0 := stepK_eq_chain l i prev hprev hj0mem
    have hsplit2 : b2jGet l (l.getD i ' ') = (pre ++ [j0]) ++ L := by
      rw [hsplit, List.append_assoc]
      rfl
    by_cases hlt : best.2.2 < stepK prev j0
    · have hji : j0 = i := by
        rcases Nat.lt_trichotomy j0 i with hc | hc | hc
        · exfalso
          have h1 : chainF l i j0 ≤ chainF l j0 j0 :=
            chainF_le_diag_right l j0 i (le_of_lt hc)
          have h2 : chainF l j0 j0 ≤ best.2.2 := hinv.2.2 j0 j0 hc
          omega
        · exact hc
        · exfalso
          have h1 : chainF l i j0 ≤ chainF l i i :=
            chainF_le_diag_left l i j0 (le_of_lt hc)
          have himem : i ∈ b2jGet l (l.getD i ' ') := self_mem_b2jGet hj0mem hi
          have hipre : i ∈ pre := by
            rw [hsplit] at himem
            rcases List.mem_append.mp himem with h | h
            · exact h
            · exfalso
              rcases List.mem_cons.mp h with h | h
              · omega
              · have hpw := b2jGet_pairwise l (l.getD i ' ')
                rw [hsplit] at hpw
                have hpw2 := (List.pairwise_append.mp hpw).2.1
                have hj0lt := (List.pairwise_cons.mp hpw2).1 i h
                omega
          have h2 : chainF l i i ≤ best.2.2 := hpre i hipre
          omega
      subst hji
      have hbest : stepBest j0 j0 (stepK prev j0) best
          = (j0 + 1 - stepK prev j0, j0 + 1 - stepK prev j0, stepK prev j0) := by
        unfold stepBest
        rw [if_pos hlt]
      rw [hbest]
      refine innerLoop_snd_inv l j0 prev hi hprev L (pre ++ [j0]) _ _ hsplit2 ?_ ?_
      · refine ⟨rfl, ?_, ?_⟩
        · have hb : chainF l j0 j0 ≤ j0 + 1 := chainF_le_fst l j0 j0
          simp only
          omega
        · intro i2 j h2
          have := hinv.2.2 i2 j h2
          simp only
          omega
      · intro j hj
        rcases List.mem_append.mp hj with h | h
        · have := hpre j h
          simp only
          omega
        · have hjj : j = j0 := by
            rcases List.mem_cons.mp h with h1 | h1
            · exact h1
            · exact absurd h1 (List.not_mem_nil j)
          subst hjj
          simp only
          omega
    · have hbest : stepBest i j0 (stepK prev j0) best = best := by
        unfold stepBest
        rw [if_neg hlt]
      rw [hbest]
      refine innerLoop_snd_inv l i prev hi hprev L (pre ++ [j0]) _ _ hsplit2 hinv ?_
      intro j hj
      rcases List.mem_append.mp hj with h | h
      · exact hpre j h
      · have hjj : j = j0 := by
          rcases List.mem_cons.mp h with h1 | h1
          · exact h1
          · exact absurd h1 (List.not_mem_nil j)
        subst hjj
        omega

lemma rowsLoop_inv (l : List Char) :
    ∀ (cnt i0 : ℕ) (prev : List (ℕ × ℕ)) (best : ℕ × ℕ × ℕ),
      i0 + cnt = l.length →
      (∀ j, lookupD prev j = if i0 = 0 then 0 else chainF l (i0 - 1) j) →
      bestInv l i0 best →
      bestInv l l.length (rowsLoop l l 0 l.length (List.range' i0 cnt) prev best)
  | 0, i0, prev, best, hcnt, _, hinv => by
    rw [show List.range' i0 0 = [] from rfl]
    rw [show rowsLoop l l 0 l.length [] prev best = best from rfl]
    rw [show l.length = i0 from by omega]
    exact hinv
  | cnt + 1, i0, prev, best, hcnt, hprev, hinv => by
    have hi0 : i0 < l.length := by omega
    rw [show List.range' i0 (cnt + 1) = i0 :: List.range' (i0 + 1) cnt from rfl]
    rw [show rowsLoop l l 0 l.length (i0 :: List.range' (i0 + 1) cnt) prev best
        = rowsLoop l l 0 l.length (List.range' (i0 + 1) cnt)
            (innerLoop i0 0 l.length (b2jGet l (l.getD i0 ' ')) prev [] best).1
            (innerLoop i0 0 l.length (b2jGet l (l.getD i0 ' ')) prev [] best).2 from rfl]
    refine rowsLoop_inv l cnt (i0 + 1) _ _ (by omega) ?_ ?_
    · intro j
      rw [innerLoop_fst i0 l.length prev (b2jGet l (l.getD i0 ' ')) [] best
        (fun x hx => (mem_b2jGet_facts hx).1) j]
      rw [if_neg (Nat.succ_ne_zero i0), Nat.add_sub_cancel]
      by_cases hm : j ∈ b2jGet l (l.getD i0 ' ')
      · rw [if_pos hm]
        exact stepK_eq_chain l i0 prev hprev hm
      · rw [if_neg hm, chainF_zero_of_not_mem hm]
        rfl
    · exact innerLoop_snd_inv l i0 prev hi0 hprev (b2jGet l (l.getD i0 ' ')) [] [] best rfl
        hinv (fun j hj => absurd hj (List.not_mem_nil j))

lemma extendBack_diag (l : List Char) : ∀ (d s : ℕ), extendBack l l 0 0 d d s = (0, 0, d + s)
  | 0, s => by
    rw [Nat.zero_add]
    rfl
  | d + 1, s => by
    have hstep : extendBack l l 0 0 (d + 1) (d + 1) s = extendBack l l 0 0 d d (s + 1) := by
      conv_lhs => rw [extendBack]
      rw [if_pos ⟨Nat.succ_pos d, Nat.succ_pos d, by rw [Nat.add_sub_cancel]⟩,
        Nat.add_sub_cancel]
    rw [hstep, extendBack_diag l d (s + 1), show d + (s + 1) = d + 1 + s from by omega]

lemma extendFwdGo_diag (l : List Char) :
    ∀ (fuel m : ℕ), m + fuel = l.length → extendFwdGo l l l.length l.length 0 0 fuel m = l.length
  | 0, m, h => by
    rw [show extendFwdGo l l l.length l.length 0 0 0 m = m from rfl]
    omega
  | fuel + 1, m, h => by
    have hstep : extendFwdGo l l l.length l.length 0 0 (fuel + 1) m
        = extendFwdGo l l l.length l.length 0 0 fuel (m + 1) := by
      conv_lhs => rw [extendFwdGo]
      rw [if_pos ⟨by omega, by omega, rfl⟩]
    rw [hstep]
    exact extendFwdGo_diag l fuel (m + 1) (by omega)

lemma flm_after (l : List Char) (b1 b2 b3 : ℕ) (hdiag : b1 = b2) (hle : b1 + b3 ≤ l.length) :
    ((extendBack l l 0 0 b1 b2 b3).1, (extendBack l l 0 0 b1 b2 b3).2.1,
      extendFwd l l l.length l.length (extendBack l l 0 0 b1 b2 b3).1
        (extendBack l l 0 0 b1 b2 b3).2.1 (extendBack l l 0 0 b1 b2 b3).2.2)
    = (0, 0, l.length) := by
  subst hdiag
  rw [extendBack_diag l b1 b3]
  unfold extendFwd
  rw [extendFwdGo_diag l (l.length - (0 + (b1 + b3))) (b1 + b3) (by omega)]

lemma flm_diag (l : List Char) :
    findLongestMatch l l 0 l.length 0 l.length = (0, 0, l.length) := by
  have hinv : bestInv l l.length
      (rowsLoop l l 0 l.length (List.range' 0 (l.length - 0)) [] (0, 0, 0)) := by
    refine rowsLoop_inv l (l.length - 0) 0 [] (0, 0, 0) (by omega) ?_ ?_
    · intro j
      rw [if_pos rfl]
      rfl
    · exact ⟨rfl, Nat.zero_le _, fun i2 j h => absurd h (Nat.not_lt_zero i2)⟩
  exact flm_after l
    (rowsLoop l l 0 l.length (List.range' 0 (l.length - 0)) [] (0, 0, 0)).1
    (rowsLoop l l 0 l.length (List.range' 0 (l.length - 0)) [] (0, 0, 0)).2.1
    (rowsLoop l l 0 l.length (List.range' 0 (l.length - 0)) [] (0, 0, 0)).2.2
    hinv.1 hinv.2.1

lemma flm_empty (l : List Char) (x y : ℕ) : findLongestMatch l l x x y y = (x, y, 0) := by
  have hrows : rowsLoop l l y y (List.range' x (x - x)) [] (x, y, 0) = (x, y, 0) := by
    rw [Nat.sub_self]
    rfl
  have hback : extendBack l l x y x y 0 = (x, y, 0) := by
    cases x with
    | zero => rfl
    | succ d =>
      conv_lhs => rw [extendBack]
      rw [if_neg (fun h => absurd h.1 (lt_irrefl _))]
  have hfwd : extendFwd l l x y x y 0 = 0 := by
    unfold extendFwd
    rw [show x - (x + 0) = 0 from by omega]
    rfl
  show ((extendBack l l x y
      (rowsLoop l l y y (List.range' x (x - x)) [] (x, y, 0)).1
      (rowsLoop l l y y (List.range' x (x - x)) [] (x, y, 0)).2.1
      (rowsLoop l l y y (List.range' x (x - x)) [] (x, y, 0)).2.2).1,
    (extendBack l l x y
      (rowsLoop l l y y (List.range' x (x - x)) [] (x, y, 0)).1
      (rowsLoop l l y y (List.range' x (x - x)) [] (x, y, 0)).2.1
      (rowsLoop l l y y (List.range' x (x - x)) [] (x, y, 0)).2.2).2.1,
    extendFwd l l x y
      (extendBack l l x y
        (rowsLoop l l y y (List.range' x (x - x)) [] (x, y, 0)).1
        (rowsLoop l l y y (List.range' x (x - x)) [] (x, y, 0)).2.1
        (rowsLoop l l y y (List.range' x (x - x)) [] (x, y, 0)).2.2).1
      (extendBack l l x y
        (rowsLoop l l y y (List.range' x (x - x)) [] (x, y, 0)).1
        (rowsLoop l l y y (List.range' x (x - x)) [] (x, y, 0)).2.1
        (rowsLoop l l y y (List.range' x (x - x)) [] (x, y, 0)).2.2).2.1
      (extendBack l l x y
        (rowsLoop l l y y (List.range' x (x - x)) [] (x, y, 0)).1
        (rowsLoop l l y y (List.range' x (x - x)) [] (x, y, 0)).2.1
        (rowsLoop l l y y (List.range' x (x - x)) [] (x, y, 0)).2.2).2.2)
    = (x, y, 0)
  rw [hrows, hback, hfwd]

lemma mtAuxGo_empty (l : List Char) : ∀ (fuel x y : ℕ), mtAuxGo l l fuel x x y y = 0
  | 0, x, y => rfl
  | fuel + 1, x, y => by
    conv_lhs => rw [mtAuxGo]
    rw [flm_empty l x y]
    simp

lemma mtAux_diag (l : List Char) : mtAux l l 0 l.length 0 l.length = l.length := by
  unfold mtAux
  conv_lhs => rw [mtAuxGo]
  rw [flm_diag l]
  by_cases hn : 0 < l.length
  · simp [hn, mtAuxGo_empty]
  · have h0 : l.length = 0 := by omega
    simp [h0]

lemma ratio_self (L : List Char) : ratio L L = 1 := by
  unfold ratio
  by_cases h : L.length + L.length = 0
  · rw [if_pos h]
  · rw [if_neg h, mtAux_diag L]
    have hLpos : 0 < L.length := by omega
    have h3 : (L.length : ℚ) ≠ 0 := Nat.cast_ne_zero.mpr (by omega)
    field_simp
    ring

/-- C9: `similarity s s = 1` for every string `s` (empty included), and more
generally `similarity` returns 1 whenever its two arguments have identical
normalized forms — `SequenceMatcher.ratio` on two equal sequences is 1, and on
two empty sequences is defined as 1. -/
theorem c9_similarity_identical :
    (∀ s : String, similarity s s = 1) ∧
    (∀ x y : String, normalize_string x = normalize_string y → similarity x y = 1) := by
  constructor
  · intro s
    unfold similarity
    exact ratio_self _
  · intro x y h
    unfold similarity
    rw [h]
    exact ratio_self _

theorem c9_similarity_identical_witness :
    similarity ("Hello, World!") ("Hello, World!") = 1 ∧
    normalize_string ("A--b") = normalize_string ("a b") ∧
    similarity ("A--b") ("a b") = 1 :=
  ⟨c9_similarity_identical.1 ("Hello, World!"), by decide,
   c9_similarity_identical.2 ("A--b") ("a b") (by decide)⟩
